import Mathlib

/-!
Shallow embedding of the diff core of the SheetHappens repository
(src/core/diff.js and the rectangle decomposition of src/taskpane/taskpane.js),
with theorems settling the frozen claims about it.

Strings are modelled as lists of Unicode scalar values (Lean `Char`), matching
JavaScript strings on the Basic Multilingual Plane characters this development
touches.  JavaScript numbers are modelled as integers: no claim depends on
fractional or NaN behaviour, only on (in)equality of values.
-/

/-- The set of characters matched by the JavaScript regexp class `\s`, which is
also the set stripped by `String.prototype.trim`:
tab, LF, VT, FF, CR, space, NBSP, Ogham space, U+2000..U+200A, line/paragraph
separators, narrow NBSP, medium math space, ideographic space, BOM. -/
def jsWhite (c : Char) : Bool :=
  c = '\t' ∨ c = '\n' ∨ c.toNat = 0xB ∨ c.toNat = 0xC ∨ c = '\r' ∨ c = ' ' ∨
  c.toNat = 0xA0 ∨ c.toNat = 0x1680 ∨ (0x2000 ≤ c.toNat ∧ c.toNat ≤ 0x200A) ∨
  c.toNat = 0x2028 ∨ c.toNat = 0x2029 ∨ c.toNat = 0x202F ∨ c.toNat = 0x205F ∨
  c.toNat = 0x3000 ∨ c.toNat = 0xFEFF

/-- `String.prototype.trim`: drop leading and trailing JS whitespace. -/
def jsTrim (l : List Char) : List Char :=
  ((l.dropWhile jsWhite).reverse.dropWhile jsWhite).reverse

/-- Canonical combining class (Unicode `ccc` property), restricted to the
combining marks this development touches; every other character has class 0.
U+0300 COMBINING GRAVE and U+0301 COMBINING ACUTE have ccc 230. -/
def ccc (c : Char) : Nat :=
  if c.toNat = 0x300 ∨ c.toNat = 0x301 then 230 else 0

/-- Canonical decomposition (Unicode `Decomposition_Mapping`), restricted to the
precomposed characters this development touches; every other character
decomposes to itself.  The listed mappings are full canonical decompositions,
so one pass suffices (no recursive decomposition is needed for them). -/
def canonDecomp (c : Char) : List Char :=
  if c.toNat = 0xE0 then ['a', Char.ofNat 0x300]
  else if c.toNat = 0xE1 then ['a', Char.ofNat 0x301]
  else if c.toNat = 0xE8 then ['e', Char.ofNat 0x300]
  else if c.toNat = 0xE9 then ['e', Char.ofNat 0x301]
  else [c]

/-- Primary composite pairs (Unicode canonical composition), restricted to the
same character repertoire as `canonDecomp`. -/
def composePair (l c : Char) : Option Char :=
  if l = 'a' ∧ c.toNat = 0x300 then some (Char.ofNat 0xE0)
  else if l = 'a' ∧ c.toNat = 0x301 then some (Char.ofNat 0xE1)
  else if l = 'e' ∧ c.toNat = 0x300 then some (Char.ofNat 0xE8)
  else if l = 'e' ∧ c.toNat = 0x301 then some (Char.ofNat 0xE9)
  else none

/-- One stable pass of the canonical-ordering exchange of UAX #15, carrying the
character under consideration: swap two adjacent characters when the first has
a larger combining class than the second and the second is not a starter. -/
def reorderAux (x : Char) : List Char → List Char
  | [] => [x]
  | y :: t =>
    if ccc y ≠ 0 ∧ ccc y < ccc x then y :: reorderAux x t
    else x :: reorderAux y t

def reorderOne : List Char → List Char
  | [] => []
  | x :: t => reorderAux x t

/-- Canonical ordering: iterate the exchange pass once per character, which is
enough for the bubble sort to reach a fixed point. -/
def canonicalOrder (l : List Char) : List Char :=
  reorderOne^[l.length] l

/-- Canonical composition of UAX #15 for one starter run: `starter` is the last
starter, `marks` the combining marks seen after it (in order).  An incoming
character composes with the starter only when no intervening mark blocks it
(i.e. all recorded marks have a strictly smaller combining class). -/
def composeRun (starter : Char) (marks : List Char) : List Char → List Char
  | [] => starter :: marks
  | c :: t =>
    if ccc c = 0 then
      match composePair starter c with
      | some l' => if marks.isEmpty then composeRun l' [] t
                   else starter :: (marks ++ composeRun c [] t)
      | none => starter :: (marks ++ composeRun c [] t)
    else
      if marks.all (fun m => ccc m < ccc c) then
        match composePair starter c with
        | some l' => composeRun l' marks t
        | none => composeRun starter (marks ++ [c]) t
      else composeRun starter (marks ++ [c]) t

/-- Canonical composition over a whole string: characters before the first
starter cannot compose and are emitted unchanged. -/
def compose : List Char → List Char
  | [] => []
  | c :: t => if ccc c = 0 then composeRun c [] t else c :: compose t

/-- `String.prototype.normalize` with argument NFC: canonical decomposition,
canonical ordering, then canonical composition (UAX #15, restricted to the
tables above; characters outside them are already in NFC form and pass
through unchanged). -/
def nfc (l : List Char) : List Char :=
  compose (canonicalOrder (l.flatMap canonDecomp))

/-- The character class of diff.js line 26: Unicode space variants that are
replaced by a plain space. -/
def isUniSpace (c : Char) : Bool :=
  c.toNat = 0xA0 ∨ c.toNat = 0x1680 ∨ (0x2000 ≤ c.toNat ∧ c.toNat ≤ 0x200A) ∨
  c.toNat = 0x202F ∨ c.toNat = 0x205F ∨ c.toNat = 0x3000

/-- The character class of diff.js line 28: zero-width characters
(U+200B..U+200D and U+FEFF) that are removed. -/
def isZeroWidth (c : Char) : Bool :=
  (0x200B ≤ c.toNat ∧ c.toNat ≤ 0x200D) ∨ c.toNat = 0xFEFF

/-- The character class of diff.js line 30: carriage return and line feed. -/
def isCRLF (c : Char) : Bool := c = '\r' ∨ c = '\n'

/-- `replace(/p+/g, out)`: every maximal run of characters satisfying `p`
becomes the single character `out`.  The Boolean argument records whether the
previous character belonged to a run. -/
def collapseRunsAux (p : Char → Bool) (out : Char) : Bool → List Char → List Char
  | _, [] => []
  | inRun, c :: t =>
    if p c then
      if inRun then collapseRunsAux p out true t
      else out :: collapseRunsAux p out true t
    else c :: collapseRunsAux p out false t

def collapseRuns (p : Char → Bool) (out : Char) (l : List Char) : List Char :=
  collapseRunsAux p out false l

/-- diff.js line 34: smart single quotes to an apostrophe. -/
def mapSingleQuote (c : Char) : Char :=
  if c.toNat = 0x2018 ∨ c.toNat = 0x2019 then Char.ofNat 0x27 else c

/-- diff.js line 35: smart double quotes to a straight double quote. -/
def mapDoubleQuote (c : Char) : Char :=
  if c.toNat = 0x201C ∨ c.toNat = 0x201D then Char.ofNat 0x22 else c

/-- `normalizeText` of diff.js lines 18-37, on the character list of a string.
The steps, in source order: trim, normalize to NFC, Unicode spaces to a plain
space, remove zero-width characters, CR/LF runs to a space, whitespace runs to
a single space, smart quotes to straight quotes, final trim.  (The source
passes non-string arguments through unchanged; the classifier below only ever
applies it to strings.) -/
def normalizeTextL (l : List Char) : List Char :=
  jsTrim
    (List.map mapDoubleQuote
      (List.map mapSingleQuote
        (collapseRuns jsWhite ' '
          (collapseRuns isCRLF ' '
            ((List.filter (fun c => !isZeroWidth c)
              ((nfc (jsTrim l)).map (fun c => if isUniSpace c then ' ' else c))))))))

def normalizeText (s : String) : String :=
  ⟨normalizeTextL s.data⟩

/-- A JavaScript value as it occurs in the snapshot cell grids: `null`,
`undefined`, a string, a number (modelled as an integer: no claim depends on
fractional or NaN behaviour), a boolean, or an object carrying the string its
`toString` method returns (every plain object has one). -/
inductive JSVal where
  | null
  | undef
  | str (s : String)
  | num (n : Int)
  | bool (b : Bool)
  | obj (s : String)
deriving DecidableEq

/-- Truthiness of a JavaScript value: `null`, `undefined`, `false`, `0` and the
empty string are falsy, everything else (objects included) is truthy. -/
def jsTruthy : JSVal → Bool
  | JSVal.null => false
  | JSVal.undef => false
  | JSVal.str s => !(s = "")
  | JSVal.num n => !(n = 0)
  | JSVal.bool b => b
  | JSVal.obj _ => true

/-- A cell as consumed by the classifier: `{ v, f, t }` (value, formula,
value type), mirroring the comment at diff.js line 40. -/
structure JSCell where
  v : JSVal
  f : JSVal
  t : JSVal
deriving DecidableEq

/-- diff.js line 41: a cell has a formula when `f` is a string starting
with `=` (a one-character marker, so the test is on the first character). -/
def hasFormula (f : JSVal) : Bool :=
  match f with
  | JSVal.str s =>
    match s.data with
    | [] => false
    | c :: _ => c = '='
  | _ => false

/-- `isBlankCell` of diff.js lines 39-46.  Note the third test: a cell whose
value type is the string `Empty` is blank even when its value is a non-null,
non-empty-string value. -/
def isBlankCell (cell : JSCell) : Bool :=
  if hasFormula cell.f then false
  else if cell.v = JSVal.null ∨ cell.v = JSVal.str "" then true
  else if cell.t = JSVal.str "Empty" then true
  else false

/-- `toUpperCase` modelled per character; the ASCII mapping of `Char.toUpper`
suffices, since no claim depends on case folding outside ASCII. -/
def jsToUpper (l : List Char) : List Char := l.map Char.toUpper

/-- `normFormula` of diff.js lines 11-14: non-strings map to the empty string,
strings are trimmed and uppercased. -/
def normFormula : JSVal → String
  | JSVal.str s => ⟨jsToUpper (jsTrim s.data)⟩
  | _ => ""

/-- diff.js lines 84-89: an object value is coerced to the string its
`toString` returns; primitive values pass through. -/
def coerceVal : JSVal → JSVal
  | JSVal.obj s => JSVal.str s
  | v => v

/-- diff.js lines 84-93: the value actually compared by the classifier — the
coerced value, text-normalized when it is a string. -/
def normVal (v : JSVal) : JSVal :=
  match coerceVal v with
  | JSVal.str s => JSVal.str (normalizeText s)
  | w => w

def CODE_NONE : Nat := 0

def CODE_ADD : Nat := 1

def CODE_REMOVE : Nat := 2

def CODE_VALUE : Nat := 3

def CODE_FORMULA : Nat := 4

/-- `classifyCell` of diff.js lines 58-100.  The one-side-has-a-formula special
case (lines 71-76) falls through to the value comparison, so the guarded
return of `CODE_FORMULA` fires only when the normalized formulas differ and it
is not the one-sided case. -/
def classifyCell (a b : JSCell) : Nat :=
  let aBlank := isBlankCell a
  let bBlank := isBlankCell b
  if aBlank = false ∧ bBlank = true then CODE_ADD
  else if aBlank = true ∧ bBlank = false then CODE_REMOVE
  else if aBlank = true ∧ bBlank = true then CODE_NONE
  else
    let af := normFormula a.f
    let bf := normFormula b.f
    if af ≠ bf ∧ ¬((af ≠ "" ∧ bf = "") ∨ (af = "" ∧ bf ≠ "")) then CODE_FORMULA
    else
      let av := normVal a.v
      let bv := normVal b.v
      if av = bv then CODE_NONE
      else if af = "" then CODE_FORMULA
      else CODE_VALUE

/-- Current-side cell holding a formula with cached value 5. -/
def cellFC : JSCell := ⟨JSVal.num 5, JSVal.str "=A1", JSVal.str "Double"⟩

/-- Baseline-side literal cell holding 6 and no formula. -/
def cellLit : JSCell := ⟨JSVal.num 6, JSVal.null, JSVal.str "Double"⟩

/-- A formula-free cell whose value is the number 5 but whose value type is the
string `Empty`. -/
def cellKindEmpty : JSCell := ⟨JSVal.num 5, JSVal.null, JSVal.str "Empty"⟩

/-- Current-side cell of the C5 witness: the shared formula recomputed to 7. -/
def cellSameF1 : JSCell := ⟨JSVal.num 7, JSVal.str "=SUM(A1:A2)", JSVal.str "Double"⟩

/-- Baseline-side cell of the C5 witness: same formula, cached value 10. -/
def cellSameF2 : JSCell := ⟨JSVal.num 10, JSVal.str "=SUM(A1:A2)", JSVal.str "Double"⟩

/-- The string "a, zero-width joiner, combining acute accent": already the
result of trimming and NFC (the joiner blocks composition), but the joiner is
removed by the zero-width replacement, which runs after the NFC step. -/
def strZWJ : String := ⟨['a', Char.ofNat 0x200D, Char.ofNat 0x301]⟩

/-- A sheet of a workbook model.  The count and offset fields are the
JavaScript numbers the model carries (they may be inconsistent with the actual
array shapes: the builder clamps them and `getCell` tolerates ragged arrays);
the three grids are arrays of arrays of values, `JSVal.undef` standing for an
array hole. -/
structure SheetModel where
  name : String
  rowCount : Int
  columnCount : Int
  rowOffset : Int
  colOffset : Int
  values : List (List JSVal)
  formulas : List (List JSVal)
  valueTypes : List (List JSVal)
deriving DecidableEq

structure WorkbookModel where
  name : String
  sheets : List SheetModel
deriving DecidableEq

/-- The synthetic empty cell `{ v: null, f: null, t: "Empty" }`. -/
def emptyCell : JSCell := ⟨JSVal.null, JSVal.null, JSVal.str "Empty"⟩

/-- `getCell` of diff.js lines 48-56.  A missing sheet or an out-of-count
coordinate yields the synthetic empty cell; within bounds, a missing row or
entry yields the per-component defaults of the source: `null` for the value
(a stored `undefined` also becomes `null`), `null` for a missing or falsy
formula (the source uses `&&`/`||`, so an empty-string formula is dropped),
and the string `Empty` for a missing or falsy value type. -/
def getCell (model : WorkbookModel) (sidx : Nat) (r c : Nat) : JSCell :=
  match model.sheets.get? sidx with
  | none => emptyCell
  | some sh =>
    if (r : Int) ≥ sh.rowCount ∨ (c : Int) ≥ sh.columnCount then emptyCell
    else
      let v := match sh.values.get? r with
        | some row =>
          match row.get? c with
          | some x => if x = JSVal.undef then JSVal.null else x
          | none => JSVal.null
        | none => JSVal.null
      let f := match sh.formulas.get? r with
        | some row =>
          match row.get? c with
          | some x => if jsTruthy x then x else JSVal.null
          | none => JSVal.null
        | none => JSVal.null
      let t := match sh.valueTypes.get? r with
        | some row =>
          match row.get? c with
          | some x => if jsTruthy x then x else JSVal.str "Empty"
          | none => JSVal.str "Empty"
        | none => JSVal.str "Empty"
      ⟨v, f, t⟩

/-- diff.js lines 149-154: map an absolute coordinate to a model-local cell,
yielding the synthetic empty cell when it falls outside the populated block
`[rowOff, rowOff + nRows) x [colOff, colOff + nCols)`. -/
def resolveCell (m : WorkbookModel) (sidx : Nat) (rowOff colOff nRows nCols : Int)
    (rAbs cAbs : Int) : JSCell :=
  let ar := rAbs - rowOff
  let ac := cAbs - colOff
  if 0 ≤ ar ∧ 0 ≤ ac ∧ ar < nRows ∧ ac < nCols then
    getCell m sidx ar.toNat ac.toNat
  else emptyCell

/-- Per-sheet difference counts (diff.js line 176). -/
structure Counts where
  add : Nat
  remove : Nat
  value : Nat
  formula : Nat
  changed : Nat
deriving DecidableEq

/-- A per-sheet diff: the dense row-major grid of difference codes anchored at
`(rowBase, colBase)` in absolute coordinates, plus the counts. -/
structure SheetDiff where
  rows : Nat
  cols : Nat
  rowBase : Int
  colBase : Int
  cells : List Nat
  counts : Counts
deriving DecidableEq

/-- The counter accumulation of diff.js lines 157-166 over the classified
codes in row-major order: `(add, remove, value, formula)`. -/
def tallyCodes (codes : List Nat) : Nat × Nat × Nat × Nat :=
  codes.foldl
    (fun (st : Nat × Nat × Nat × Nat) code =>
      if code ≠ CODE_NONE then
        if code = CODE_ADD then (st.1 + 1, st.2.1, st.2.2.1, st.2.2.2)
        else if code = CODE_REMOVE then (st.1, st.2.1 + 1, st.2.2.1, st.2.2.2)
        else if code = CODE_VALUE then (st.1, st.2.1, st.2.2.1 + 1, st.2.2.2)
        else if code = CODE_FORMULA then (st.1, st.2.1, st.2.2.1, st.2.2.2 + 1)
        else st
      else st)
    (0, 0, 0, 0)

/-- A placeholder sheet for the (never exercised) out-of-range lookup in
`diffSheetPair`: the indices passed by `diffWorkbooks` always come from
`findSheetIdx`, which only returns valid indices. -/
def defaultSheet : SheetModel := ⟨"", 0, 0, 0, 0, [], [], []⟩

/-- diff.js lines 124-176: diff one both-present sheet pair.  The offsets and
counts are clamped to be non-negative (`Math.max(0, x || 0)`), the absolute
bounding box covering both populated blocks is computed, and every absolute
coordinate in it is classified after resolving each side's local cell.  The
source writes nonzero codes into a zero-initialized dense `Uint8Array` at
index `rr * cols + cc`, each index exactly once, which is the row-major list
of all classified codes built here; the counters are accumulated over the same
enumeration. -/
def diffSheetPair (curr base : WorkbookModel) (ai bi : Nat) : SheetDiff :=
  let sa := (curr.sheets.get? ai).getD defaultSheet
  let sb := (base.sheets.get? bi).getD defaultSheet
  let aRowOff := max 0 sa.rowOffset
  let aColOff := max 0 sa.colOffset
  let bRowOff := max 0 sb.rowOffset
  let bColOff := max 0 sb.colOffset
  let aRows := max 0 sa.rowCount
  let aCols := max 0 sa.columnCount
  let bRows := max 0 sb.rowCount
  let bCols := max 0 sb.columnCount
  let baseRow := min aRowOff bRowOff
  let baseCol := min aColOff bColOff
  let endRow := max (aRowOff + aRows) (bRowOff + bRows)
  let endCol := max (aColOff + aCols) (bColOff + bCols)
  let rows := (endRow - baseRow).toNat
  let cols := (endCol - baseCol).toNat
  let codeAt := fun (rr cc : Nat) =>
    classifyCell
      (resolveCell curr ai aRowOff aColOff aRows aCols (baseRow + rr) (baseCol + cc))
      (resolveCell base bi bRowOff bColOff bRows bCols (baseRow + rr) (baseCol + cc))
  let cells := (List.range rows).flatMap
    (fun rr => (List.range cols).map (fun cc => codeAt rr cc))
  let t := tallyCodes cells
  let changed := t.1 + t.2.1 + t.2.2.1 + t.2.2.2
  ⟨rows, cols, baseRow, baseCol, cells, ⟨t.1, t.2.1, t.2.2.1, t.2.2.2, changed⟩⟩

/-- The index a JavaScript `Map` built from `(name, index)` pairs associates to
`name`: the last index with that name (later insertions overwrite), `none`
when the name is absent. -/
def findSheetIdx (m : WorkbookModel) (name : String) : Option Nat :=
  ((m.sheets.enum.filter (fun p => p.2.name = name)).map (fun p => p.1)).getLast?

/-- Iteration order of a JavaScript `Set`: insertion order, keeping the first
occurrence of each element. -/
def dedupFirstAux (seen : List String) : List String → List String
  | [] => []
  | x :: t => if x ∈ seen then dedupFirstAux seen t else x :: dedupFirstAux (x :: seen) t

def dedupFirst (l : List String) : List String := dedupFirstAux [] l

/-- The aggregate totals of diff.js line 110 (the source nests them under a
`total` key of `summary`). -/
structure Summary where
  add : Nat
  remove : Nat
  value : Nat
  formula : Nat
  changedSheets : Nat
deriving DecidableEq

/-- The diff result: both-present sheets with their grids, the per-sheet
status strings, and the aggregate totals.  The two JavaScript objects keyed by
sheet name are modelled as association lists in insertion order (each name is
processed once, so keys never repeat). -/
structure Diff where
  bySheet : List (String × SheetDiff)
  sheetStatus : List (String × String)
  summary : Summary
deriving DecidableEq

/-- The body of the per-name loop of diff.js lines 112-177. -/
def processName (curr base : WorkbookModel) (acc : Diff) (name : String) : Diff :=
  match findSheetIdx curr name, findSheetIdx base name with
  | none, some _ => { acc with sheetStatus := acc.sheetStatus ++ [(name, "removed")] }
  | some _, none => { acc with sheetStatus := acc.sheetStatus ++ [(name, "added")] }
  | none, none => acc
  | some ai, some bi =>
    let sd := diffSheetPair curr base ai bi
    let status := if sd.counts.changed > 0 then "modified" else "unchanged"
    { bySheet := acc.bySheet ++ [(name, sd)]
      sheetStatus := acc.sheetStatus ++ [(name, status)]
      summary :=
        { add := acc.summary.add + sd.counts.add
          remove := acc.summary.remove + sd.counts.remove
          value := acc.summary.value + sd.counts.value
          formula := acc.summary.formula + sd.counts.formula
          changedSheets :=
            acc.summary.changedSheets + (if sd.counts.changed > 0 then 1 else 0) } }

/-- `diffWorkbooks` of diff.js lines 102-180: iterate the union of the two
models' sheet-name sets in insertion order, accumulating statuses, per-sheet
diffs and totals.  (The `none, none` branch of `processName` is unreachable:
every iterated name occurs in one of the models.) -/
def diffWorkbooks (curr base : WorkbookModel) : Diff :=
  let allNames := dedupFirst
    (curr.sheets.map (fun s => s.name) ++ base.sheets.map (fun s => s.name))
  allNames.foldl (processName curr base) ⟨[], [], ⟨0, 0, 0, 0, 0⟩⟩

def entryFor (curr base : WorkbookModel) (name : String) : Option (String × SheetDiff) :=
  match findSheetIdx curr name, findSheetIdx base name with
  | some ai, some bi => some (name, diffSheetPair curr base ai bi)
  | _, _ => none

def statusFor (curr base : WorkbookModel) (name : String) : Option (String × String) :=
  match findSheetIdx curr name, findSheetIdx base name with
  | none, some _ => some (name, "removed")
  | some _, none => some (name, "added")
  | none, none => none
  | some ai, some bi =>
    some (name,
      if (diffSheetPair curr base ai bi).counts.changed > 0 then "modified" else "unchanged")

def tallyStepFn (st : Nat × Nat × Nat × Nat) (code : Nat) : Nat × Nat × Nat × Nat :=
  if code ≠ CODE_NONE then
    if code = CODE_ADD then (st.1 + 1, st.2.1, st.2.2.1, st.2.2.2)
    else if code = CODE_REMOVE then (st.1, st.2.1 + 1, st.2.2.1, st.2.2.2)
    else if code = CODE_VALUE then (st.1, st.2.1, st.2.2.1 + 1, st.2.2.2)
    else if code = CODE_FORMULA then (st.1, st.2.1, st.2.2.1, st.2.2.2 + 1)
    else st
  else st

def wbTotC : WorkbookModel :=
  ⟨"c", [⟨"S", 1, 2, 0, 0, [[JSVal.num 1, JSVal.num 2]], [[JSVal.null, JSVal.null]],
    [[JSVal.str "Double", JSVal.str "Double"]]⟩]⟩

def wbTotB : WorkbookModel :=
  ⟨"b", [⟨"S", 1, 2, 0, 0, [[JSVal.num 1, JSVal.null]], [[JSVal.null, JSVal.null]],
    [[JSVal.str "Double", JSVal.str "Empty"]]⟩]⟩

/-- Association-list lookup on the keyed diff entries (the JavaScript
`bySheet[name]` access). -/
def lookupDiff : List (String × SheetDiff) → String → Option SheetDiff
  | [], _ => none
  | (k, v) :: t, name => if k = name then some v else lookupDiff t name

def shOffC : SheetModel := ⟨"S", 1, 1, 1, 1, [[JSVal.num 7]], [[JSVal.null]], [[JSVal.str "Double"]]⟩

def shOffB : SheetModel := ⟨"S", 1, 1, 0, 0, [[JSVal.num 8]], [[JSVal.null]], [[JSVal.str "Double"]]⟩

def wbOffC : WorkbookModel := ⟨"c", [shOffC]⟩

def wbOffB : WorkbookModel := ⟨"b", [shOffB]⟩

def shRag : SheetModel := ⟨"R", 2, 1, 0, 0, [[JSVal.num 1]], [], []⟩

def wbRag : WorkbookModel := ⟨"w", [shRag]⟩

structure Rect where
  r1 : Nat
  c1 : Nat
  r2 : Nat
  c2 : Nat
deriving DecidableEq

def cellAt (sd : SheetDiff) (r c : Nat) : Nat := (sd.cells.get? (r * sd.cols + c)).getD 0

def runEnd (get : Nat → Nat) (cols code c2 : Nat) : Nat :=
  if c2 + 1 < cols ∧ get (c2 + 1) = code then runEnd get cols code (c2 + 1) else c2
termination_by cols - c2
decreasing_by omega

def segsFrom (get : Nat → Nat) (cols code : Nat) (c : Nat) : List (Nat × Nat) :=
  if c < cols then
    if get c = code then
      (c, runEnd get cols code c) :: segsFrom get cols code (runEnd get cols code c + 1)
    else segsFrom get cols code (c + 1)
  else []
termination_by cols - c
decreasing_by
  · have hge : ∀ (n c0 : Nat), cols - c0 ≤ n → c0 ≤ runEnd get cols code c0 := by
      intro n
      induction n with
      | zero =>
        intro c0 h0
        unfold runEnd
        rw [if_neg (by rintro ⟨h1, _⟩; omega)]
      | succ m ih =>
        intro c0 h0
        by_cases hc : c0 + 1 < cols ∧ get (c0 + 1) = code
        · unfold runEnd
          rw [if_pos hc]
          have := ih (c0 + 1) (by omega)
          omega
        · unfold runEnd
          rw [if_neg hc]
    have := hge (cols - c) c (le_refl _)
    omega
  · omega

def collectRowSegments (sd : SheetDiff) (rowIndex code : Nat) : List (Nat × Nat) :=
  segsFrom (fun c => cellAt sd rowIndex c) sd.cols code 0

def findOpen (k : Nat × Nat) : List ((Nat × Nat) × Rect) → Option Rect
  | [] => none
  | (k2, rect) :: t => if k2 = k then some rect else findOpen k t

def removeOpen (k : Nat × Nat) : List ((Nat × Nat) × Rect) → List ((Nat × Nat) × Rect)
  | [] => []
  | (k2, rect) :: t => if k2 = k then t else (k2, rect) :: removeOpen k t

def stepSegs (r : Nat) : List (Nat × Nat) → List ((Nat × Nat) × Rect) →
    List ((Nat × Nat) × Rect) → List ((Nat × Nat) × Rect) × List ((Nat × Nat) × Rect)
  | [], next, prev => (next, prev)
  | s :: rest, next, prev =>
    match findOpen s prev with
    | some rect => stepSegs r rest (next ++ [(s, ⟨rect.r1, rect.c1, r, rect.c2⟩)]) (removeOpen s prev)
    | none => stepSegs r rest (next ++ [(s, ⟨r, s.1, r, s.2⟩)]) prev

def stepRow (sd : SheetDiff) (code : Nat) (st : List Rect × List ((Nat × Nat) × Rect)) (r : Nat) :
    List Rect × List ((Nat × Nat) × Rect) :=
  let p := stepSegs r (collectRowSegments sd r code) [] st.2
  (st.1 ++ p.2.map (fun e => e.2), p.1)

def mergeRectanglesForCode (sd : SheetDiff) (code : Nat) : List Rect :=
  let fin := (List.range sd.rows).foldl (stepRow sd code) ([], [])
  fin.1 ++ fin.2.map (fun e => e.2)

def mkRect (r : Nat) (prev : List ((Nat × Nat) × Rect)) (s : Nat × Nat) : Rect :=
  match findOpen s prev with
  | some rect => ⟨rect.r1, rect.c1, r, rect.c2⟩
  | none => ⟨r, s.1, r, s.2⟩

/-- The invariant of the row sweep of `mergeRectanglesForCode`, after the rows
below `r` have been processed: every open rectangle is keyed by its column
span, ends exactly at row `r - 1`, covers a stack of identical segments and is
vertically maximal at its top; every finished rectangle is additionally closed
at the bottom; every segment of a processed row is covered by exactly one
rectangle; and rectangles with equal spans have disjoint row ranges. -/
def SweepInv (sd : SheetDiff) (code r : Nat) (fin : List Rect)
    (opn : List ((Nat × Nat) × Rect)) : Prop :=
  (∀ e ∈ opn, e.1 = (e.2.c1, e.2.c2) ∧ e.2.r2 + 1 = r ∧ e.2.r1 ≤ e.2.r2 ∧
    (∀ p, e.2.r1 ≤ p → p ≤ e.2.r2 → e.1 ∈ collectRowSegments sd p code) ∧
    (e.2.r1 = 0 ∨ e.1 ∉ collectRowSegments sd (e.2.r1 - 1) code)) ∧
  (opn.map (fun e => e.1)).Nodup ∧
  (∀ rect ∈ fin, rect.r1 ≤ rect.r2 ∧ rect.r2 + 1 < r ∧
    (∀ p, rect.r1 ≤ p → p ≤ rect.r2 → (rect.c1, rect.c2) ∈ collectRowSegments sd p code) ∧
    (rect.c1, rect.c2) ∉ collectRowSegments sd (rect.r2 + 1) code ∧
    (rect.r1 = 0 ∨ (rect.c1, rect.c2) ∉ collectRowSegments sd (rect.r1 - 1) code)) ∧
  (∀ p, p < r → ∀ s ∈ collectRowSegments sd p code,
    ∃ rect ∈ fin ++ opn.map (fun e => e.2),
      (rect.c1, rect.c2) = s ∧ rect.r1 ≤ p ∧ p ≤ rect.r2) ∧
  List.Pairwise
    (fun A B : Rect => (A.c1 = B.c1 ∧ A.c2 = B.c2) → A.r2 < B.r1 ∨ B.r2 < A.r1)
    (fin ++ opn.map (fun e => e.2))

def sdPlus : SheetDiff := ⟨3, 2, 0, 0, [1, 0, 1, 1, 1, 0], ⟨4, 0, 0, 0, 4⟩⟩

def twoRects : List Rect := [⟨0, 0, 2, 0⟩, ⟨1, 1, 1, 1⟩]

/-- C1 (counterexample): the claim says a non-blank pair where exactly one side
has a formula and the normalized values differ is classified `FormulaChanged`
regardless of which side holds the formula.  When the current side holds the
formula (`cellFC`) and the baseline is a bare literal (`cellLit`), the code
returns `CODE_VALUE`, not `CODE_FORMULA`: after the one-sided fallthrough the
final test `af === ""` looks only at the current side. -/
theorem classify_one_sided_counterexample :
    isBlankCell cellFC = false ∧ isBlankCell cellLit = false ∧
    normFormula cellFC.f ≠ "" ∧ normFormula cellLit.f = "" ∧
    normVal cellFC.v ≠ normVal cellLit.v ∧
    classifyCell cellFC cellLit = CODE_VALUE ∧ CODE_VALUE ≠ CODE_FORMULA := by
  decide

/-- C1 (amended): for non-blank cells where exactly one side has a non-empty
normalized formula and the normalized values differ, `classifyCell` returns
`FormulaChanged` when the baseline side holds the formula (the current side is
the bare literal), and `ValueChanged` when the current side holds the
formula. -/
theorem classify_one_sided_formula (a b : JSCell)
    (ha : isBlankCell a = false) (hb : isBlankCell b = false)
    (hone : (normFormula a.f ≠ "" ∧ normFormula b.f = "") ∨
            (normFormula a.f = "" ∧ normFormula b.f ≠ ""))
    (hv : normVal a.v ≠ normVal b.v) :
    classifyCell a b = (if normFormula a.f = "" then CODE_FORMULA else CODE_VALUE) := by
  unfold classifyCell
  simp only [ha, hb]
  have hne : normFormula a.f ≠ normFormula b.f := by
    rcases hone with ⟨h1, h2⟩ | ⟨h1, h2⟩
    · rw [h2]; exact h1
    · rw [h1]; exact Ne.symm h2
  split_ifs <;> simp_all

/-- Witness for the amended C1 theorem at the concrete cell pair. -/
theorem classify_one_sided_formula_witness :
    classifyCell cellFC cellLit =
      (if normFormula cellFC.f = "" then CODE_FORMULA else CODE_VALUE) :=
  classify_one_sided_formula cellFC cellLit (by decide) (by decide)
    (by decide) (by decide)

/-- C2 (counterexample): the claim says every cell with no formula and a
non-null, non-empty-string value is non-blank regardless of its value kind;
but `isBlankCell` also returns true whenever the value type is the string
`Empty`, so `cellKindEmpty` is blank despite its value 5. -/
theorem isBlankCell_kind_counterexample :
    hasFormula cellKindEmpty.f = false ∧ cellKindEmpty.v ≠ JSVal.null ∧
    cellKindEmpty.v ≠ JSVal.str "" ∧ isBlankCell cellKindEmpty = true := by
  decide

/-- C2 (amended): a cell is blank iff it has no formula (a string starting
with `=`) and its value is null, or the empty string, or its value type is the
string `Empty`; in particular a formula always implies non-blank. -/
theorem isBlankCell_iff (c : JSCell) :
    isBlankCell c = true ↔
      hasFormula c.f = false ∧
        (c.v = JSVal.null ∨ c.v = JSVal.str "" ∨ c.t = JSVal.str "Empty") := by
  unfold isBlankCell
  split_ifs with h1 h2 h3 <;> simp_all <;> tauto

/-- C5: for non-blank cells whose normalized formula texts are equal, the
classifier returns `None` when the normalized values are equal,
`FormulaChanged` when they differ and both sides have no formula text, and
`ValueChanged` when they differ under the same non-empty formula. -/
theorem classify_same_formula (a b : JSCell)
    (ha : isBlankCell a = false) (hb : isBlankCell b = false)
    (hf : normFormula a.f = normFormula b.f) :
    classifyCell a b =
      (if normVal a.v = normVal b.v then CODE_NONE
       else if normFormula a.f = "" then CODE_FORMULA
       else CODE_VALUE) := by
  unfold classifyCell
  simp only [ha, hb, hf]
  split_ifs <;> simp_all

/-- Witness for the C5 theorem at a concrete same-formula pair. -/
theorem classify_same_formula_witness :
    classifyCell cellSameF1 cellSameF2 =
      (if normVal cellSameF1.v = normVal cellSameF2.v then CODE_NONE
       else if normFormula cellSameF1.f = "" then CODE_FORMULA
       else CODE_VALUE) :=
  classify_same_formula cellSameF1 cellSameF2 (by decide) (by decide) (by decide)

/-- C8: text normalization is claimed idempotent, but `normalizeText` removes
zero-width characters only after the NFC step, so the first pass turns
`strZWJ` into "a + combining acute" (two characters) and the second pass
NFC-composes that pair into the single precomposed character U+00E1. -/
theorem normalizeText_not_idempotent :
    normalizeText (normalizeText strZWJ) ≠ normalizeText strZWJ := by
  decide

theorem foldl_processName_bySheet (curr base : WorkbookModel) (names : List String)
    (acc : Diff) :
    (names.foldl (processName curr base) acc).bySheet
      = acc.bySheet ++ names.filterMap (entryFor curr base) := by
  induction names generalizing acc with
  | nil => simp
  | cons x t ih =>
    rw [List.foldl_cons, ih]
    rcases h1 : findSheetIdx curr x with _ | ai <;> rcases h2 : findSheetIdx base x with _ | bi <;>
      simp [processName, entryFor, h1, h2]

theorem foldl_processName_summary (curr base : WorkbookModel) (names : List String)
    (acc : Diff) :
    (names.foldl (processName curr base) acc).summary.add
        = acc.summary.add
          + ((names.filterMap (entryFor curr base)).map (fun e => e.2.counts.add)).sum ∧
    (names.foldl (processName curr base) acc).summary.remove
        = acc.summary.remove
          + ((names.filterMap (entryFor curr base)).map (fun e => e.2.counts.remove)).sum ∧
    (names.foldl (processName curr base) acc).summary.value
        = acc.summary.value
          + ((names.filterMap (entryFor curr base)).map (fun e => e.2.counts.value)).sum ∧
    (names.foldl (processName curr base) acc).summary.formula
        = acc.summary.formula
          + ((names.filterMap (entryFor curr base)).map (fun e => e.2.counts.formula)).sum ∧
    (names.foldl (processName curr base) acc).summary.changedSheets
        = acc.summary.changedSheets
          + ((names.filterMap (entryFor curr base)).map
              (fun e => if e.2.counts.changed > 0 then 1 else 0)).sum := by
  induction names generalizing acc with
  | nil => simp
  | cons x t ih =>
    rw [List.foldl_cons]
    rcases h1 : findSheetIdx curr x with _ | ai <;> rcases h2 : findSheetIdx base x with _ | bi <;>
      · have h := ih (processName curr base acc x)
        simp [processName, entryFor, h1, h2] at h ⊢
        omega

theorem foldl_processName_status (curr base : WorkbookModel) (names : List String)
    (acc : Diff) :
    (names.foldl (processName curr base) acc).sheetStatus
      = acc.sheetStatus ++ names.filterMap (statusFor curr base) := by
  induction names generalizing acc with
  | nil => simp
  | cons x t ih =>
    rw [List.foldl_cons, ih]
    rcases h1 : findSheetIdx curr x with _ | ai <;> rcases h2 : findSheetIdx base x with _ | bi <;>
      simp [processName, statusFor, h1, h2]

theorem foldl_tallyStep (cs : List Nat) :
    ∀ st : Nat × Nat × Nat × Nat,
      cs.foldl tallyStepFn st
        = (st.1 + cs.count CODE_ADD, st.2.1 + cs.count CODE_REMOVE,
           st.2.2.1 + cs.count CODE_VALUE, st.2.2.2 + cs.count CODE_FORMULA) := by
  induction cs with
  | nil => intro st; simp
  | cons x t ih =>
    intro st
    rw [List.foldl_cons, ih]
    simp only [tallyStepFn, List.count_cons, CODE_NONE, CODE_ADD, CODE_REMOVE, CODE_VALUE,
      CODE_FORMULA]
    split_ifs <;> simp_all <;> omega

theorem tallyCodes_eq_counts (cs : List Nat) :
    tallyCodes cs
      = (cs.count CODE_ADD, cs.count CODE_REMOVE, cs.count CODE_VALUE, cs.count CODE_FORMULA) := by
  have h : tallyCodes cs = cs.foldl tallyStepFn (0, 0, 0, 0) := rfl
  rw [h, foldl_tallyStep]
  simp

theorem classifyCell_mem_codes (a b : JSCell) :
    classifyCell a b = CODE_NONE ∨ classifyCell a b = CODE_ADD ∨
    classifyCell a b = CODE_REMOVE ∨ classifyCell a b = CODE_VALUE ∨
    classifyCell a b = CODE_FORMULA := by
  simp only [classifyCell]
  split_ifs <;> simp

theorem diffSheetPair_changed (curr base : WorkbookModel) (ai bi : Nat) :
    (diffSheetPair curr base ai bi).counts.changed
      = (diffSheetPair curr base ai bi).counts.add
        + (diffSheetPair curr base ai bi).counts.remove
        + (diffSheetPair curr base ai bi).counts.value
        + (diffSheetPair curr base ai bi).counts.formula := rfl

/-- C6: for every pair of workbook models, every per-sheet entry of the diff
satisfies `counts.changed = counts.add + counts.remove + counts.value +
counts.formula`, and each summary total field equals the sum of the
corresponding per-sheet count over the both-present sheets only (one-sided
sheets contribute no `bySheet` entry and nothing to the summary). -/
theorem diffWorkbooks_count_conservation (curr base : WorkbookModel) :
    (∀ e ∈ (diffWorkbooks curr base).bySheet,
        e.2.counts.changed
          = e.2.counts.add + e.2.counts.remove + e.2.counts.value + e.2.counts.formula) ∧
    (diffWorkbooks curr base).summary.add
        = ((diffWorkbooks curr base).bySheet.map (fun e => e.2.counts.add)).sum ∧
    (diffWorkbooks curr base).summary.remove
        = ((diffWorkbooks curr base).bySheet.map (fun e => e.2.counts.remove)).sum ∧
    (diffWorkbooks curr base).summary.value
        = ((diffWorkbooks curr base).bySheet.map (fun e => e.2.counts.value)).sum ∧
    (diffWorkbooks curr base).summary.formula
        = ((diffWorkbooks curr base).bySheet.map (fun e => e.2.counts.formula)).sum := by
  have hdw : diffWorkbooks curr base
      = (dedupFirst (curr.sheets.map (fun s => s.name) ++ base.sheets.map (fun s => s.name))).foldl
          (processName curr base) ⟨[], [], ⟨0, 0, 0, 0, 0⟩⟩ := rfl
  have hsum := foldl_processName_summary curr base
    (dedupFirst (curr.sheets.map (fun s => s.name) ++ base.sheets.map (fun s => s.name)))
    ⟨[], [], ⟨0, 0, 0, 0, 0⟩⟩
  have hby := foldl_processName_bySheet curr base
    (dedupFirst (curr.sheets.map (fun s => s.name) ++ base.sheets.map (fun s => s.name)))
    ⟨[], [], ⟨0, 0, 0, 0, 0⟩⟩
  refine ⟨?_, ?_, ?_, ?_, ?_⟩
  · intro e he
    rw [hdw, hby] at he
    simp only [List.nil_append] at he
    obtain ⟨n, hn, hsome⟩ := List.mem_filterMap.1 he
    unfold entryFor at hsome
    rcases hf1 : findSheetIdx curr n with _ | ai <;> rcases hf2 : findSheetIdx base n with _ | bi <;>
      rw [hf1, hf2] at hsome <;> simp at hsome
    rw [← hsome]
    exact diffSheetPair_changed curr base ai bi
  · rw [hdw, hsum.1, hby]; simp
  · rw [hdw, hsum.2.1, hby]; simp
  · rw [hdw, hsum.2.2.1, hby]; simp
  · rw [hdw, hsum.2.2.2.1, hby]; simp

theorem diffSheetPair_counts_eq (curr base : WorkbookModel) (ai bi : Nat) :
    (diffSheetPair curr base ai bi).counts.add
        = (diffSheetPair curr base ai bi).cells.count CODE_ADD ∧
    (diffSheetPair curr base ai bi).counts.remove
        = (diffSheetPair curr base ai bi).cells.count CODE_REMOVE ∧
    (diffSheetPair curr base ai bi).counts.value
        = (diffSheetPair curr base ai bi).cells.count CODE_VALUE ∧
    (diffSheetPair curr base ai bi).counts.formula
        = (diffSheetPair curr base ai bi).cells.count CODE_FORMULA ∧
    ∀ x ∈ (diffSheetPair curr base ai bi).cells,
      x = CODE_NONE ∨ x = CODE_ADD ∨ x = CODE_REMOVE ∨ x = CODE_VALUE ∨ x = CODE_FORMULA := by
  have h1 : (diffSheetPair curr base ai bi).counts.add
      = (tallyCodes (diffSheetPair curr base ai bi).cells).1 := rfl
  have h2 : (diffSheetPair curr base ai bi).counts.remove
      = (tallyCodes (diffSheetPair curr base ai bi).cells).2.1 := rfl
  have h3 : (diffSheetPair curr base ai bi).counts.value
      = (tallyCodes (diffSheetPair curr base ai bi).cells).2.2.1 := rfl
  have h4 : (diffSheetPair curr base ai bi).counts.formula
      = (tallyCodes (diffSheetPair curr base ai bi).cells).2.2.2 := rfl
  rw [tallyCodes_eq_counts] at h1 h2 h3 h4
  refine ⟨h1, h2, h3, h4, ?_⟩
  intro x hx
  have hcells : (diffSheetPair curr base ai bi).cells
      = (List.range (diffSheetPair curr base ai bi).rows).flatMap
          (fun (rr : Nat) => (List.range (diffSheetPair curr base ai bi).cols).map
            (fun (cc : Nat) => classifyCell
              (resolveCell curr ai (max 0 ((curr.sheets.get? ai).getD defaultSheet).rowOffset)
                (max 0 ((curr.sheets.get? ai).getD defaultSheet).colOffset)
                (max 0 ((curr.sheets.get? ai).getD defaultSheet).rowCount)
                (max 0 ((curr.sheets.get? ai).getD defaultSheet).columnCount)
                ((diffSheetPair curr base ai bi).rowBase + rr)
                ((diffSheetPair curr base ai bi).colBase + cc))
              (resolveCell base bi (max 0 ((base.sheets.get? bi).getD defaultSheet).rowOffset)
                (max 0 ((base.sheets.get? bi).getD defaultSheet).colOffset)
                (max 0 ((base.sheets.get? bi).getD defaultSheet).rowCount)
                (max 0 ((base.sheets.get? bi).getD defaultSheet).columnCount)
                ((diffSheetPair curr base ai bi).rowBase + rr)
                ((diffSheetPair curr base ai bi).colBase + cc)))) := rfl
  rw [hcells] at hx
  simp only [List.mem_flatMap, List.mem_map] at hx
  obtain ⟨rr, _, cc, _, hx⟩ := hx
  rw [← hx]
  exact classifyCell_mem_codes _ _

/-- C10: for every both-present sheet entry of a diff, each stored per-code
count equals the number of entries of the dense cells array holding that code,
and the cells array contains no value outside the five difference codes. -/
theorem diffWorkbooks_cells_counts (curr base : WorkbookModel) (e : String × SheetDiff)
    (he : e ∈ (diffWorkbooks curr base).bySheet) :
    e.2.counts.add = e.2.cells.count CODE_ADD ∧
    e.2.counts.remove = e.2.cells.count CODE_REMOVE ∧
    e.2.counts.value = e.2.cells.count CODE_VALUE ∧
    e.2.counts.formula = e.2.cells.count CODE_FORMULA ∧
    ∀ x ∈ e.2.cells,
      x = CODE_NONE ∨ x = CODE_ADD ∨ x = CODE_REMOVE ∨ x = CODE_VALUE ∨ x = CODE_FORMULA := by
  have hdw : diffWorkbooks curr base
      = (dedupFirst (curr.sheets.map (fun s => s.name) ++ base.sheets.map (fun s => s.name))).foldl
          (processName curr base) ⟨[], [], ⟨0, 0, 0, 0, 0⟩⟩ := rfl
  rw [hdw, foldl_processName_bySheet] at he
  simp only [List.nil_append] at he
  obtain ⟨n, hn, hsome⟩ := List.mem_filterMap.1 he
  unfold entryFor at hsome
  rcases hf1 : findSheetIdx curr n with _ | ai <;> rcases hf2 : findSheetIdx base n with _ | bi <;>
    rw [hf1, hf2] at hsome <;> simp at hsome
  rw [← hsome]
  exact diffSheetPair_counts_eq curr base ai bi

/-- Witness for C10 at a concrete model pair. -/
theorem diffWorkbooks_cells_counts_witness :
    ("S", (⟨1, 2, 0, 0, [0, 1], ⟨1, 0, 0, 0, 1⟩⟩ : SheetDiff)).2.counts.add
        = ("S", (⟨1, 2, 0, 0, [0, 1], ⟨1, 0, 0, 0, 1⟩⟩ : SheetDiff)).2.cells.count CODE_ADD ∧
    ("S", (⟨1, 2, 0, 0, [0, 1], ⟨1, 0, 0, 0, 1⟩⟩ : SheetDiff)).2.counts.remove
        = ("S", (⟨1, 2, 0, 0, [0, 1], ⟨1, 0, 0, 0, 1⟩⟩ : SheetDiff)).2.cells.count CODE_REMOVE ∧
    ("S", (⟨1, 2, 0, 0, [0, 1], ⟨1, 0, 0, 0, 1⟩⟩ : SheetDiff)).2.counts.value
        = ("S", (⟨1, 2, 0, 0, [0, 1], ⟨1, 0, 0, 0, 1⟩⟩ : SheetDiff)).2.cells.count CODE_VALUE ∧
    ("S", (⟨1, 2, 0, 0, [0, 1], ⟨1, 0, 0, 0, 1⟩⟩ : SheetDiff)).2.counts.formula
        = ("S", (⟨1, 2, 0, 0, [0, 1], ⟨1, 0, 0, 0, 1⟩⟩ : SheetDiff)).2.cells.count CODE_FORMULA ∧
    ∀ x ∈ ("S", (⟨1, 2, 0, 0, [0, 1], ⟨1, 0, 0, 0, 1⟩⟩ : SheetDiff)).2.cells,
      x = CODE_NONE ∨ x = CODE_ADD ∨ x = CODE_REMOVE ∨ x = CODE_VALUE ∨ x = CODE_FORMULA :=
  diffWorkbooks_cells_counts wbTotC wbTotB
    ("S", ⟨1, 2, 0, 0, [0, 1], ⟨1, 0, 0, 0, 1⟩⟩) (by decide)

theorem findSheetIdx_mem (m : WorkbookModel) (name : String) (ai : Nat)
    (h : findSheetIdx m name = some ai) : name ∈ m.sheets.map (fun s => s.name) := by
  unfold findSheetIdx at h
  have h2 := List.mem_of_getLast?_eq_some h
  simp only [List.mem_map] at h2
  obtain ⟨p, hp, _⟩ := h2
  have hp2 := List.mem_filter.1 hp
  have hmem : p.2 ∈ m.sheets := by
    have hg := List.mem_enum_iff_getElem?.1 hp2.1
    exact List.getElem?_mem hg
  simp only [List.mem_map]
  exact ⟨p.2, hmem, by simpa using hp2.2⟩

theorem mem_dedupFirstAux (x : String) :
    ∀ (l seen : List String), x ∈ dedupFirstAux seen l ↔ (x ∈ l ∧ x ∉ seen) := by
  intro l
  induction l with
  | nil => intro seen; simp [dedupFirstAux]
  | cons y t ih =>
    intro seen
    simp only [dedupFirstAux]
    by_cases hy : y ∈ seen
    · rw [if_pos hy, ih]
      simp only [List.mem_cons]
      constructor
      · rintro ⟨h1, h2⟩; exact ⟨Or.inr h1, h2⟩
      · rintro ⟨h1 | h1, h2⟩
        · exact absurd (h1 ▸ hy) h2
        · exact ⟨h1, h2⟩
    · rw [if_neg hy]
      simp only [List.mem_cons, ih, List.mem_cons]
      constructor
      · rintro (rfl | ⟨h1, h2⟩)
        · exact ⟨Or.inl rfl, hy⟩
        · refine ⟨Or.inr h1, fun hs => h2 (Or.inr hs)⟩
      · rintro ⟨rfl | h1, h2⟩
        · exact Or.inl rfl
        · by_cases hxy : x = y
          · exact Or.inl hxy
          · exact Or.inr ⟨h1, fun hs => (by rcases hs with h | h; exact hxy h; exact h2 h)⟩

theorem mem_dedupFirst (x : String) (l : List String) : x ∈ dedupFirst l ↔ x ∈ l := by
  rw [dedupFirst, mem_dedupFirstAux]
  simp

theorem entryFor_key (curr base : WorkbookModel) (n : String) (e : String × SheetDiff)
    (h : entryFor curr base n = some e) : e.1 = n := by
  unfold entryFor at h
  rcases h1 : findSheetIdx curr n with _ | ai <;> rcases h2 : findSheetIdx base n with _ | bi <;>
    rw [h1, h2] at h <;> simp at h
  rw [← h]

theorem lookupDiff_filterMap (curr base : WorkbookModel) (name : String) (sd : SheetDiff)
    (hsome : entryFor curr base name = some (name, sd)) :
    ∀ (names : List String), name ∈ names →
      lookupDiff (names.filterMap (entryFor curr base)) name = some sd := by
  intro names
  induction names with
  | nil => simp
  | cons x t ih =>
    intro hmem
    by_cases hx : x = name
    · subst hx
      rw [List.filterMap_cons, hsome]
      simp [lookupDiff]
    · rcases he : entryFor curr base x with _ | e
      · rw [List.filterMap_cons, he]
        exact ih (by rcases List.mem_cons.1 hmem with h | h; exact absurd h.symm hx; exact h)
      · have hk := entryFor_key curr base x e he
        rw [List.filterMap_cons, he]
        have : lookupDiff (e :: t.filterMap (entryFor curr base)) name
            = lookupDiff (t.filterMap (entryFor curr base)) name := by
          rcases e with ⟨k, v⟩
          simp only [lookupDiff]
          rw [if_neg]
          intro hkn
          exact hx (by rw [← hk, hkn])
        rw [this]
        exact ih (by rcases List.mem_cons.1 hmem with h | h; exact absurd h.symm hx; exact h)

theorem rowMajor_get? (cols : Nat) (f : Nat → Nat → Nat) :
    ∀ (l : List Nat) (rr cc : Nat), rr < l.length → cc < cols →
      ((l.flatMap (fun r => (List.range cols).map (f r))).get? (rr * cols + cc))
        = (l.get? rr).map (fun r => f r cc) := by
  intro l
  induction l with
  | nil => intro rr cc hr; simp at hr
  | cons x t ih =>
    intro rr cc hr hc
    cases rr with
    | zero =>
      simp only [List.flatMap_cons, Nat.zero_mul, Nat.zero_add]
      rw [List.get?_eq_getElem?, List.getElem?_append_left (by simpa using hc)]
      simp [List.getElem?_range, hc]
    | succ r =>
      simp only [List.flatMap_cons]
      have hlen : (List.map (f x) (List.range cols)).length = cols := by simp
      have hmul : (r + 1) * cols = r * cols + cols := Nat.succ_mul r cols
      rw [List.get?_eq_getElem?, List.getElem?_append_right (by rw [hlen]; omega)]
      rw [hlen]
      have hidx : (r + 1) * cols + cc - cols = r * cols + cc := by omega
      rw [hidx, ← List.get?_eq_getElem?, ih r cc (by simpa using Nat.lt_of_succ_lt_succ hr) hc]
      simp

theorem resolveCell_outside (m : WorkbookModel) (sidx : Nat)
    (rowOff colOff nRows nCols rAbs cAbs : Int)
    (h : rAbs < rowOff ∨ rowOff + nRows ≤ rAbs ∨ cAbs < colOff ∨ colOff + nCols ≤ cAbs) :
    resolveCell m sidx rowOff colOff nRows nCols rAbs cAbs = emptyCell := by
  simp only [resolveCell]
  split_ifs with hg
  · exfalso; omega
  · rfl

theorem diffSheetPair_cells_get? (curr base : WorkbookModel) (ai bi : Nat) (rr cc : Nat)
    (hrr : rr < (diffSheetPair curr base ai bi).rows)
    (hcc : cc < (diffSheetPair curr base ai bi).cols) :
    (diffSheetPair curr base ai bi).cells.get?
        (rr * (diffSheetPair curr base ai bi).cols + cc)
      = some (classifyCell
          (resolveCell curr ai (max 0 ((curr.sheets.get? ai).getD defaultSheet).rowOffset)
            (max 0 ((curr.sheets.get? ai).getD defaultSheet).colOffset)
            (max 0 ((curr.sheets.get? ai).getD defaultSheet).rowCount)
            (max 0 ((curr.sheets.get? ai).getD defaultSheet).columnCount)
            ((diffSheetPair curr base ai bi).rowBase + rr)
            ((diffSheetPair curr base ai bi).colBase + cc))
          (resolveCell base bi (max 0 ((base.sheets.get? bi).getD defaultSheet).rowOffset)
            (max 0 ((base.sheets.get? bi).getD defaultSheet).colOffset)
            (max 0 ((base.sheets.get? bi).getD defaultSheet).rowCount)
            (max 0 ((base.sheets.get? bi).getD defaultSheet).columnCount)
            ((diffSheetPair curr base ai bi).rowBase + rr)
            ((diffSheetPair curr base ai bi).colBase + cc))) := by
  have hcells : (diffSheetPair curr base ai bi).cells
      = (List.range (diffSheetPair curr base ai bi).rows).flatMap
          (fun (r : Nat) => (List.range (diffSheetPair curr base ai bi).cols).map
            (fun (c : Nat) => classifyCell
              (resolveCell curr ai (max 0 ((curr.sheets.get? ai).getD defaultSheet).rowOffset)
                (max 0 ((curr.sheets.get? ai).getD defaultSheet).colOffset)
                (max 0 ((curr.sheets.get? ai).getD defaultSheet).rowCount)
                (max 0 ((curr.sheets.get? ai).getD defaultSheet).columnCount)
                ((diffSheetPair curr base ai bi).rowBase + r)
                ((diffSheetPair curr base ai bi).colBase + c))
              (resolveCell base bi (max 0 ((base.sheets.get? bi).getD defaultSheet).rowOffset)
                (max 0 ((base.sheets.get? bi).getD defaultSheet).colOffset)
                (max 0 ((base.sheets.get? bi).getD defaultSheet).rowCount)
                (max 0 ((base.sheets.get? bi).getD defaultSheet).columnCount)
                ((diffSheetPair curr base ai bi).rowBase + r)
                ((diffSheetPair curr base ai bi).colBase + c)))) := rfl
  rw [hcells,
    rowMajor_get? (diffSheetPair curr base ai bi).cols
      (fun (r c : Nat) => classifyCell
        (resolveCell curr ai (max 0 ((curr.sheets.get? ai).getD defaultSheet).rowOffset)
          (max 0 ((curr.sheets.get? ai).getD defaultSheet).colOffset)
          (max 0 ((curr.sheets.get? ai).getD defaultSheet).rowCount)
          (max 0 ((curr.sheets.get? ai).getD defaultSheet).columnCount)
          ((diffSheetPair curr base ai bi).rowBase + r)
          ((diffSheetPair curr base ai bi).colBase + c))
        (resolveCell base bi (max 0 ((base.sheets.get? bi).getD defaultSheet).rowOffset)
          (max 0 ((base.sheets.get? bi).getD defaultSheet).colOffset)
          (max 0 ((base.sheets.get? bi).getD defaultSheet).rowCount)
          (max 0 ((base.sheets.get? bi).getD defaultSheet).columnCount)
          ((diffSheetPair curr base ai bi).rowBase + r)
          ((diffSheetPair curr base ai bi).colBase + c)))
      (List.range (diffSheetPair curr base ai bi).rows) rr cc
      (by simpa using hrr) hcc]
  simp [List.get?_eq_getElem?, List.getElem?_range, hrr]

/-- C7: for every sheet name present in both models, with non-negative offsets
and counts, the produced `SheetDiff` is anchored at
`rowBase = min(a.rowOffset, b.rowOffset)` (and similarly for columns), spans to
`max(offset + count)` on each axis, its dense grid holds at index
`rr * cols + cc` the classification of the two resolved cells, and on each
side every absolute coordinate outside that model's populated block resolves
to the synthetic empty cell before classification. -/
theorem diffWorkbooks_grid_alignment (curr base : WorkbookModel) (name : String)
    (ai bi : Nat) (sa sb : SheetModel)
    (hai : findSheetIdx curr name = some ai) (hbi : findSheetIdx base name = some bi)
    (hsa : curr.sheets.get? ai = some sa) (hsb : base.sheets.get? bi = some sb)
    (hro : 0 ≤ sa.rowOffset) (hco : 0 ≤ sa.colOffset)
    (hrc : 0 ≤ sa.rowCount) (hcc : 0 ≤ sa.columnCount)
    (hro2 : 0 ≤ sb.rowOffset) (hco2 : 0 ≤ sb.colOffset)
    (hrc2 : 0 ≤ sb.rowCount) (hcc2 : 0 ≤ sb.columnCount) :
    lookupDiff (diffWorkbooks curr base).bySheet name = some (diffSheetPair curr base ai bi) ∧
    (diffSheetPair curr base ai bi).rowBase = min sa.rowOffset sb.rowOffset ∧
    (diffSheetPair curr base ai bi).colBase = min sa.colOffset sb.colOffset ∧
    (diffSheetPair curr base ai bi).rows
      = (max (sa.rowOffset + sa.rowCount) (sb.rowOffset + sb.rowCount)
          - min sa.rowOffset sb.rowOffset).toNat ∧
    (diffSheetPair curr base ai bi).cols
      = (max (sa.colOffset + sa.columnCount) (sb.colOffset + sb.columnCount)
          - min sa.colOffset sb.colOffset).toNat ∧
    (∀ rr cc : Nat, rr < (diffSheetPair curr base ai bi).rows →
        cc < (diffSheetPair curr base ai bi).cols →
        (diffSheetPair curr base ai bi).cells.get?
            (rr * (diffSheetPair curr base ai bi).cols + cc)
          = some (classifyCell
              (resolveCell curr ai sa.rowOffset sa.colOffset sa.rowCount sa.columnCount
                ((diffSheetPair curr base ai bi).rowBase + rr)
                ((diffSheetPair curr base ai bi).colBase + cc))
              (resolveCell base bi sb.rowOffset sb.colOffset sb.rowCount sb.columnCount
                ((diffSheetPair curr base ai bi).rowBase + rr)
                ((diffSheetPair curr base ai bi).colBase + cc)))) ∧
    (∀ rAbs cAbs : Int,
        (rAbs < sa.rowOffset ∨ sa.rowOffset + sa.rowCount ≤ rAbs ∨
         cAbs < sa.colOffset ∨ sa.colOffset + sa.columnCount ≤ cAbs) →
        resolveCell curr ai sa.rowOffset sa.colOffset sa.rowCount sa.columnCount rAbs cAbs
          = emptyCell) ∧
    (∀ rAbs cAbs : Int,
        (rAbs < sb.rowOffset ∨ sb.rowOffset + sb.rowCount ≤ rAbs ∨
         cAbs < sb.colOffset ∨ sb.colOffset + sb.columnCount ≤ cAbs) →
        resolveCell base bi sb.rowOffset sb.colOffset sb.rowCount sb.columnCount rAbs cAbs
          = emptyCell) := by
  refine ⟨?_, ?_, ?_, ?_, ?_, ?_, ?_, ?_⟩
  · have hentry : entryFor curr base name = some (name, diffSheetPair curr base ai bi) := by
      unfold entryFor; rw [hai, hbi]
    have hmem : name ∈ dedupFirst
        (curr.sheets.map (fun s => s.name) ++ base.sheets.map (fun s => s.name)) := by
      rw [mem_dedupFirst, List.mem_append]
      exact Or.inl (findSheetIdx_mem curr name ai hai)
    have hdw : diffWorkbooks curr base
        = (dedupFirst (curr.sheets.map (fun s => s.name)
            ++ base.sheets.map (fun s => s.name))).foldl
            (processName curr base) ⟨[], [], ⟨0, 0, 0, 0, 0⟩⟩ := rfl
    rw [hdw, foldl_processName_bySheet]
    simp only [List.nil_append]
    exact lookupDiff_filterMap curr base name (diffSheetPair curr base ai bi) hentry _ hmem
  · simp only [diffSheetPair, hsa, hsb, Option.getD_some]
    rw [max_eq_right hro, max_eq_right hro2]
  · simp only [diffSheetPair, hsa, hsb, Option.getD_some]
    rw [max_eq_right hco, max_eq_right hco2]
  · simp only [diffSheetPair, hsa, hsb, Option.getD_some]
    rw [max_eq_right hro, max_eq_right hro2, max_eq_right hrc, max_eq_right hrc2]
  · simp only [diffSheetPair, hsa, hsb, Option.getD_some]
    rw [max_eq_right hco, max_eq_right hco2, max_eq_right hcc, max_eq_right hcc2]
  · intro rr cc hrr hccb
    have h := diffSheetPair_cells_get? curr base ai bi rr cc hrr hccb
    simp only [hsa, hsb, Option.getD_some, max_eq_right hro, max_eq_right hco,
      max_eq_right hrc, max_eq_right hcc, max_eq_right hro2, max_eq_right hco2,
      max_eq_right hrc2, max_eq_right hcc2] at h
    exact h
  · intro rAbs cAbs h
    exact resolveCell_outside curr ai sa.rowOffset sa.colOffset sa.rowCount sa.columnCount
      rAbs cAbs h
  · intro rAbs cAbs h
    exact resolveCell_outside base bi sb.rowOffset sb.colOffset sb.rowCount sb.columnCount
      rAbs cAbs h

theorem getCell_missing_row (m : WorkbookModel) (sidx r c : Nat) (sh : SheetModel)
    (hsh : m.sheets.get? sidx = some sh)
    (hv : sh.values.get? r = none) (hf : sh.formulas.get? r = none)
    (ht : sh.valueTypes.get? r = none) :
    getCell m sidx r c = emptyCell := by
  simp only [getCell, hsh, hv, hf, ht]
  split_ifs <;> rfl

theorem getCell_missing_value_entry (m : WorkbookModel) (sidx r c : Nat) (sh : SheetModel)
    (rowv : List JSVal) (hsh : m.sheets.get? sidx = some sh)
    (hv : sh.values.get? r = some rowv) (hc : rowv.get? c = none) :
    (getCell m sidx r c).v = JSVal.null := by
  simp only [getCell, hsh, hv, hc]
  split_ifs <;> rfl

theorem getCell_missing_formula_entry (m : WorkbookModel) (sidx r c : Nat) (sh : SheetModel)
    (rowf : List JSVal) (hsh : m.sheets.get? sidx = some sh)
    (hf : sh.formulas.get? r = some rowf) (hc : rowf.get? c = none) :
    (getCell m sidx r c).f = JSVal.null := by
  simp only [getCell, hsh, hf, hc]
  split_ifs <;> rfl

theorem getCell_missing_type_entry (m : WorkbookModel) (sidx r c : Nat) (sh : SheetModel)
    (rowt : List JSVal) (hsh : m.sheets.get? sidx = some sh)
    (ht : sh.valueTypes.get? r = some rowt) (hc : rowt.get? c = none) :
    (getCell m sidx r c).t = JSVal.str "Empty" := by
  simp only [getCell, hsh, ht, hc]
  split_ifs <;> rfl

theorem resolveCell_zero_rows (m : WorkbookModel) (sidx : Nat)
    (rowOff colOff nCols rAbs cAbs : Int) :
    resolveCell m sidx rowOff colOff 0 nCols rAbs cAbs = emptyCell := by
  simp only [resolveCell]
  split_ifs with h
  · exfalso; omega
  · rfl

theorem classifyCell_empty_empty : classifyCell emptyCell emptyCell = CODE_NONE := by decide

theorem diffSheetPair_zero_rows_counts (curr base : WorkbookModel) (ai bi : Nat)
    (sa sb : SheetModel)
    (hsa : curr.sheets.get? ai = some sa) (hsb : base.sheets.get? bi = some sb)
    (hra : sa.rowCount ≤ 0) (hrb : sb.rowCount ≤ 0) :
    (diffSheetPair curr base ai bi).counts = ⟨0, 0, 0, 0, 0⟩ := by
  have hall : ∀ x ∈ (diffSheetPair curr base ai bi).cells, x = CODE_NONE := by
    intro x hx
    have hcells : (diffSheetPair curr base ai bi).cells
        = (List.range (diffSheetPair curr base ai bi).rows).flatMap
            (fun (r : Nat) => (List.range (diffSheetPair curr base ai bi).cols).map
              (fun (c : Nat) => classifyCell
                (resolveCell curr ai (max 0 ((curr.sheets.get? ai).getD defaultSheet).rowOffset)
                  (max 0 ((curr.sheets.get? ai).getD defaultSheet).colOffset)
                  (max 0 ((curr.sheets.get? ai).getD defaultSheet).rowCount)
                  (max 0 ((curr.sheets.get? ai).getD defaultSheet).columnCount)
                  ((diffSheetPair curr base ai bi).rowBase + r)
                  ((diffSheetPair curr base ai bi).colBase + c))
                (resolveCell base bi (max 0 ((base.sheets.get? bi).getD defaultSheet).rowOffset)
                  (max 0 ((base.sheets.get? bi).getD defaultSheet).colOffset)
                  (max 0 ((base.sheets.get? bi).getD defaultSheet).rowCount)
                  (max 0 ((base.sheets.get? bi).getD defaultSheet).columnCount)
                  ((diffSheetPair curr base ai bi).rowBase + r)
                  ((diffSheetPair curr base ai bi).colBase + c)))) := rfl
    rw [hcells] at hx
    simp only [hsa, hsb, Option.getD_some, max_eq_left hra, max_eq_left hrb,
      resolveCell_zero_rows, classifyCell_empty_empty, List.mem_flatMap, List.mem_map] at hx
    obtain ⟨r, _, c, _, hx⟩ := hx
    exact hx.symm
  have h1 : (diffSheetPair curr base ai bi).counts.add
      = (tallyCodes (diffSheetPair curr base ai bi).cells).1 := rfl
  have h2 : (diffSheetPair curr base ai bi).counts.remove
      = (tallyCodes (diffSheetPair curr base ai bi).cells).2.1 := rfl
  have h3 : (diffSheetPair curr base ai bi).counts.value
      = (tallyCodes (diffSheetPair curr base ai bi).cells).2.2.1 := rfl
  have h4 : (diffSheetPair curr base ai bi).counts.formula
      = (tallyCodes (diffSheetPair curr base ai bi).cells).2.2.2 := rfl
  rw [tallyCodes_eq_counts] at h1 h2 h3 h4
  have hz : ∀ k : Nat, k ≠ CODE_NONE → (diffSheetPair curr base ai bi).cells.count k = 0 := by
    intro k hk
    rw [List.count_eq_zero]
    intro hmem
    exact hk (hall k hmem)
  have hchanged := diffSheetPair_changed curr base ai bi
  have ha := h1.trans (hz CODE_ADD (by decide))
  have hb := h2.trans (hz CODE_REMOVE (by decide))
  have hc := h3.trans (hz CODE_VALUE (by decide))
  have hd := h4.trans (hz CODE_FORMULA (by decide))
  have heta : (diffSheetPair curr base ai bi).counts
      = ⟨(diffSheetPair curr base ai bi).counts.add,
         (diffSheetPair curr base ai bi).counts.remove,
         (diffSheetPair curr base ai bi).counts.value,
         (diffSheetPair curr base ai bi).counts.formula,
         (diffSheetPair curr base ai bi).counts.changed⟩ := rfl
  rw [heta, ha, hb, hc, hd, hchanged, ha, hb, hc, hd]

/-- C9: the diff builder is total (it is a total Lean function by
construction, so no failure mode exists in the model) and best-effort: models
with zero sheets yield an empty/zero-count result, a one-sided empty model
yields no per-sheet grids, zero summary totals and only `removed` statuses,
rows or entries missing from the three cell grids resolve to the synthetic
empty cell components, and a both-present sheet pair with no populated cells
yields all-zero counts. -/
theorem diffWorkbooks_total_best_effort :
    (∀ curr base : WorkbookModel, curr.sheets = [] → base.sheets = [] →
        diffWorkbooks curr base = ⟨[], [], ⟨0, 0, 0, 0, 0⟩⟩) ∧
    (∀ curr base : WorkbookModel, curr.sheets = [] →
        (diffWorkbooks curr base).bySheet = [] ∧
        (diffWorkbooks curr base).summary = ⟨0, 0, 0, 0, 0⟩ ∧
        ∀ st ∈ (diffWorkbooks curr base).sheetStatus, st.2 = "removed") ∧
    (∀ (m : WorkbookModel) (sidx r c : Nat) (sh : SheetModel),
        m.sheets.get? sidx = some sh →
        sh.values.get? r = none → sh.formulas.get? r = none → sh.valueTypes.get? r = none →
        getCell m sidx r c = emptyCell) ∧
    (∀ (m : WorkbookModel) (sidx r c : Nat) (sh : SheetModel) (rowv : List JSVal),
        m.sheets.get? sidx = some sh → sh.values.get? r = some rowv → rowv.get? c = none →
        (getCell m sidx r c).v = JSVal.null) ∧
    (∀ (m : WorkbookModel) (sidx r c : Nat) (sh : SheetModel) (rowf : List JSVal),
        m.sheets.get? sidx = some sh → sh.formulas.get? r = some rowf → rowf.get? c = none →
        (getCell m sidx r c).f = JSVal.null) ∧
    (∀ (m : WorkbookModel) (sidx r c : Nat) (sh : SheetModel) (rowt : List JSVal),
        m.sheets.get? sidx = some sh → sh.valueTypes.get? r = some rowt → rowt.get? c = none →
        (getCell m sidx r c).t = JSVal.str "Empty") ∧
    (∀ (curr base : WorkbookModel) (ai bi : Nat) (sa sb : SheetModel),
        curr.sheets.get? ai = some sa → base.sheets.get? bi = some sb →
        sa.rowCount ≤ 0 → sb.rowCount ≤ 0 →
        (diffSheetPair curr base ai bi).counts = ⟨0, 0, 0, 0, 0⟩) := by
  refine ⟨?_, ?_,
    fun m sidx r c sh h1 h2 h3 h4 => getCell_missing_row m sidx r c sh h1 h2 h3 h4,
    fun m sidx r c sh rowv h1 h2 h3 => getCell_missing_value_entry m sidx r c sh rowv h1 h2 h3,
    fun m sidx r c sh rowf h1 h2 h3 => getCell_missing_formula_entry m sidx r c sh rowf h1 h2 h3,
    fun m sidx r c sh rowt h1 h2 h3 => getCell_missing_type_entry m sidx r c sh rowt h1 h2 h3,
    fun curr base ai bi sa sb h1 h2 h3 h4 =>
      diffSheetPair_zero_rows_counts curr base ai bi sa sb h1 h2 h3 h4⟩
  · intro curr base hc hb
    simp [diffWorkbooks, hc, hb, dedupFirst, dedupFirstAux]
  · intro curr base hc
    have hf : ∀ n, findSheetIdx curr n = none := fun n => by simp [findSheetIdx, hc]
    have hE : ∀ n, entryFor curr base n = none := by
      intro n
      rcases h2 : findSheetIdx base n with _ | bi <;> simp [entryFor, hf n, h2]
    have hdw : diffWorkbooks curr base
        = (dedupFirst (curr.sheets.map (fun s => s.name)
            ++ base.sheets.map (fun s => s.name))).foldl
            (processName curr base) ⟨[], [], ⟨0, 0, 0, 0, 0⟩⟩ := rfl
    have hnil : (dedupFirst (curr.sheets.map (fun s => s.name)
        ++ base.sheets.map (fun s => s.name))).filterMap (entryFor curr base) = [] :=
      List.filterMap_eq_nil_iff.2 (fun a _ => hE a)
    have hsum := foldl_processName_summary curr base
      (dedupFirst (curr.sheets.map (fun s => s.name) ++ base.sheets.map (fun s => s.name)))
      ⟨[], [], ⟨0, 0, 0, 0, 0⟩⟩
    refine ⟨?_, ?_, ?_⟩
    · rw [hdw, foldl_processName_bySheet, hnil]
      rfl
    · have h1 := hsum.1
      have h2 := hsum.2.1
      have h3 := hsum.2.2.1
      have h4 := hsum.2.2.2.1
      have h5 := hsum.2.2.2.2
      rw [hnil] at h1 h2 h3 h4 h5
      simp only [List.map_nil, List.sum_nil] at h1 h2 h3 h4 h5
      have heta : (diffWorkbooks curr base).summary
          = ⟨(diffWorkbooks curr base).summary.add,
             (diffWorkbooks curr base).summary.remove,
             (diffWorkbooks curr base).summary.value,
             (diffWorkbooks curr base).summary.formula,
             (diffWorkbooks curr base).summary.changedSheets⟩ := rfl
      rw [heta, hdw, h1, h2, h3, h4, h5]
      rfl
    · intro st hst
      rw [hdw, foldl_processName_status] at hst
      simp only [List.nil_append] at hst
      obtain ⟨n, _, hsf⟩ := List.mem_filterMap.1 hst
      unfold statusFor at hsf
      rw [hf n] at hsf
      rcases h2 : findSheetIdx base n with _ | bi <;> rw [h2] at hsf <;> simp at hsf
      rw [← hsf]

/-- Witness for C6 at a concrete model pair with one added cell. -/
theorem diffWorkbooks_count_conservation_witness :
    (("S", (⟨1, 2, 0, 0, [0, 1], ⟨1, 0, 0, 0, 1⟩⟩ : SheetDiff)).2.counts.changed
        = ("S", (⟨1, 2, 0, 0, [0, 1], ⟨1, 0, 0, 0, 1⟩⟩ : SheetDiff)).2.counts.add
          + ("S", (⟨1, 2, 0, 0, [0, 1], ⟨1, 0, 0, 0, 1⟩⟩ : SheetDiff)).2.counts.remove
          + ("S", (⟨1, 2, 0, 0, [0, 1], ⟨1, 0, 0, 0, 1⟩⟩ : SheetDiff)).2.counts.value
          + ("S", (⟨1, 2, 0, 0, [0, 1], ⟨1, 0, 0, 0, 1⟩⟩ : SheetDiff)).2.counts.formula) ∧
    (diffWorkbooks wbTotC wbTotB).summary.add
        = ((diffWorkbooks wbTotC wbTotB).bySheet.map (fun e => e.2.counts.add)).sum :=
  ⟨(diffWorkbooks_count_conservation wbTotC wbTotB).1
      ("S", ⟨1, 2, 0, 0, [0, 1], ⟨1, 0, 0, 0, 1⟩⟩) (by decide),
   (diffWorkbooks_count_conservation wbTotC wbTotB).2.1⟩

/-- Witness for C7 at a concrete pair whose populated blocks have different
anchors. -/
theorem diffWorkbooks_grid_alignment_witness :
    lookupDiff (diffWorkbooks wbOffC wbOffB).bySheet "S" = some (diffSheetPair wbOffC wbOffB 0 0) ∧
    (diffSheetPair wbOffC wbOffB 0 0).rowBase = min shOffC.rowOffset shOffB.rowOffset ∧
    (diffSheetPair wbOffC wbOffB 0 0).colBase = min shOffC.colOffset shOffB.colOffset ∧
    (diffSheetPair wbOffC wbOffB 0 0).rows
      = (max (shOffC.rowOffset + shOffC.rowCount) (shOffB.rowOffset + shOffB.rowCount)
          - min shOffC.rowOffset shOffB.rowOffset).toNat ∧
    (diffSheetPair wbOffC wbOffB 0 0).cols
      = (max (shOffC.colOffset + shOffC.columnCount) (shOffB.colOffset + shOffB.columnCount)
          - min shOffC.colOffset shOffB.colOffset).toNat ∧
    (∀ rr cc : Nat, rr < (diffSheetPair wbOffC wbOffB 0 0).rows →
        cc < (diffSheetPair wbOffC wbOffB 0 0).cols →
        (diffSheetPair wbOffC wbOffB 0 0).cells.get?
            (rr * (diffSheetPair wbOffC wbOffB 0 0).cols + cc)
          = some (classifyCell
              (resolveCell wbOffC 0 shOffC.rowOffset shOffC.colOffset shOffC.rowCount
                shOffC.columnCount
                ((diffSheetPair wbOffC wbOffB 0 0).rowBase + rr)
                ((diffSheetPair wbOffC wbOffB 0 0).colBase + cc))
              (resolveCell wbOffB 0 shOffB.rowOffset shOffB.colOffset shOffB.rowCount
                shOffB.columnCount
                ((diffSheetPair wbOffC wbOffB 0 0).rowBase + rr)
                ((diffSheetPair wbOffC wbOffB 0 0).colBase + cc)))) ∧
    (∀ rAbs cAbs : Int,
        (rAbs < shOffC.rowOffset ∨ shOffC.rowOffset + shOffC.rowCount ≤ rAbs ∨
         cAbs < shOffC.colOffset ∨ shOffC.colOffset + shOffC.columnCount ≤ cAbs) →
        resolveCell wbOffC 0 shOffC.rowOffset shOffC.colOffset shOffC.rowCount shOffC.columnCount
          rAbs cAbs = emptyCell) ∧
    (∀ rAbs cAbs : Int,
        (rAbs < shOffB.rowOffset ∨ shOffB.rowOffset + shOffB.rowCount ≤ rAbs ∨
         cAbs < shOffB.colOffset ∨ shOffB.colOffset + shOffB.columnCount ≤ cAbs) →
        resolveCell wbOffB 0 shOffB.rowOffset shOffB.colOffset shOffB.rowCount shOffB.columnCount
          rAbs cAbs = emptyCell) :=
  diffWorkbooks_grid_alignment wbOffC wbOffB "S" 0 0 shOffC shOffB
    (by decide) (by decide) (by decide) (by decide)
    (by decide) (by decide) (by decide) (by decide)
    (by decide) (by decide) (by decide) (by decide)

/-- Witness for C9: a ragged model whose second row is missing from all three
grids resolves to the synthetic empty cell. -/
theorem diffWorkbooks_total_best_effort_witness :
    getCell wbRag 0 1 0 = emptyCell :=
  diffWorkbooks_total_best_effort.2.2.1 wbRag 0 1 0 shRag
    (by decide) (by decide) (by decide) (by decide)

theorem runEnd_ge (get : Nat → Nat) (cols code : Nat) :
    ∀ c2, c2 ≤ runEnd get cols code c2 := by
  refine runEnd.induct get cols code (fun c2 => c2 ≤ runEnd get cols code c2) ?_ ?_
  · intro x hx ih
    unfold runEnd
    rw [if_pos hx]
    omega
  · intro x hx
    unfold runEnd
    rw [if_neg hx]

theorem runEnd_lt (get : Nat → Nat) (cols code : Nat) :
    ∀ c2, c2 < cols → runEnd get cols code c2 < cols := by
  refine runEnd.induct get cols code (fun c2 => c2 < cols → runEnd get cols code c2 < cols) ?_ ?_
  · intro x hx ih _
    unfold runEnd
    rw [if_pos hx]
    exact ih hx.1
  · intro x hx h
    unfold runEnd
    rw [if_neg hx]
    exact h

theorem runEnd_stop (get : Nat → Nat) (cols code : Nat) :
    ∀ c2, ¬(runEnd get cols code c2 + 1 < cols ∧ get (runEnd get cols code c2 + 1) = code) := by
  refine runEnd.induct get cols code
    (fun c2 => ¬(runEnd get cols code c2 + 1 < cols ∧ get (runEnd get cols code c2 + 1) = code))
    ?_ ?_
  · intro x hx ih
    unfold runEnd
    rw [if_pos hx]
    exact ih
  · intro x hx
    unfold runEnd
    rw [if_neg hx]
    exact hx

theorem runEnd_all (get : Nat → Nat) (cols code : Nat) :
    ∀ c2, get c2 = code →
      ∀ x, c2 ≤ x → x ≤ runEnd get cols code c2 → get x = code := by
  refine runEnd.induct get cols code
    (fun c2 => get c2 = code → ∀ x, c2 ≤ x → x ≤ runEnd get cols code c2 → get x = code) ?_ ?_
  · intro y hy ih hc x hx1 hx2
    unfold runEnd at hx2
    rw [if_pos hy] at hx2
    rcases Nat.eq_or_lt_of_le hx1 with rfl | hlt
    · exact hc
    · exact ih hy.2 x hlt hx2
  · intro y hy hc x hx1 hx2
    unfold runEnd at hx2
    rw [if_neg hy] at hx2
    have : x = y := le_antisymm hx2 hx1
    rw [this]
    exact hc

theorem segsFrom_sound (get : Nat → Nat) (cols code : Nat) :
    ∀ c, ∀ s ∈ segsFrom get cols code c,
      c ≤ s.1 ∧ s.1 ≤ s.2 ∧ s.2 < cols ∧
      (∀ x, s.1 ≤ x → x ≤ s.2 → get x = code) ∧
      (s.2 + 1 = cols ∨ get (s.2 + 1) ≠ code) := by
  refine segsFrom.induct get cols code
    (fun c => ∀ s ∈ segsFrom get cols code c,
      c ≤ s.1 ∧ s.1 ≤ s.2 ∧ s.2 < cols ∧
      (∀ x, s.1 ≤ x → x ≤ s.2 → get x = code) ∧
      (s.2 + 1 = cols ∨ get (s.2 + 1) ≠ code)) ?_ ?_ ?_
  · intro y hy hcy ih s hs
    unfold segsFrom at hs
    rw [if_pos hy, if_pos hcy] at hs
    rcases List.mem_cons.1 hs with rfl | hs
    · refine ⟨le_refl _, runEnd_ge get cols code y, runEnd_lt get cols code y hy,
        runEnd_all get cols code y hcy, ?_⟩
      have hstop := runEnd_stop get cols code y
      have hlt := runEnd_lt get cols code y hy
      by_cases hE : runEnd get cols code y + 1 < cols
      · right
        intro hcode
        exact hstop ⟨hE, hcode⟩
      · left
        omega
    · obtain ⟨h1, h2, h3, h4, h5⟩ := ih s hs
      have := runEnd_ge get cols code y
      exact ⟨by omega, h2, h3, h4, h5⟩
  · intro y hy hcy ih s hs
    unfold segsFrom at hs
    rw [if_pos hy, if_neg hcy] at hs
    obtain ⟨h1, h2, h3, h4, h5⟩ := ih s hs
    exact ⟨by omega, h2, h3, h4, h5⟩
  · intro y hy s hs
    unfold segsFrom at hs
    rw [if_neg hy] at hs
    exact absurd hs (List.not_mem_nil s)

theorem segsFrom_cover (get : Nat → Nat) (cols code : Nat) :
    ∀ c, ∀ x, c ≤ x → x < cols → get x = code →
      ∃ s ∈ segsFrom get cols code c, s.1 ≤ x ∧ x ≤ s.2 := by
  refine segsFrom.induct get cols code
    (fun c => ∀ x, c ≤ x → x < cols → get x = code →
      ∃ s ∈ segsFrom get cols code c, s.1 ≤ x ∧ x ≤ s.2) ?_ ?_ ?_
  · intro y hy hcy ih x hx1 hx2 hx3
    unfold segsFrom
    rw [if_pos hy, if_pos hcy]
    by_cases hle : x ≤ runEnd get cols code y
    · exact ⟨(y, runEnd get cols code y), List.mem_cons.2 (Or.inl rfl), hx1, hle⟩
    · have hne : x ≠ runEnd get cols code y + 1 := by
        intro heq
        exact runEnd_stop get cols code y (by rw [← heq]; exact ⟨hx2, hx3⟩)
      obtain ⟨s, hs, hsx⟩ := ih x (by omega) hx2 hx3
      exact ⟨s, List.mem_cons.2 (Or.inr hs), hsx⟩
  · intro y hy hcy ih x hx1 hx2 hx3
    unfold segsFrom
    rw [if_pos hy, if_neg hcy]
    have hne : x ≠ y := by
      intro heq
      exact hcy (heq ▸ hx3)
    exact ih x (by omega) hx2 hx3
  · intro y hy x hx1 hx2 _
    omega

theorem segsFrom_left_max (get : Nat → Nat) (cols code : Nat) :
    ∀ c, (c = 0 ∨ get (c - 1) ≠ code ∨ get c ≠ code) →
      ∀ s ∈ segsFrom get cols code c, s.1 = 0 ∨ get (s.1 - 1) ≠ code := by
  refine segsFrom.induct get cols code
    (fun c => (c = 0 ∨ get (c - 1) ≠ code ∨ get c ≠ code) →
      ∀ s ∈ segsFrom get cols code c, s.1 = 0 ∨ get (s.1 - 1) ≠ code) ?_ ?_ ?_
  · intro y hy hcy ih hpre s hs
    unfold segsFrom at hs
    rw [if_pos hy, if_pos hcy] at hs
    rcases List.mem_cons.1 hs with rfl | hs
    · rcases hpre with h | h | h
      · exact Or.inl h
      · exact Or.inr h
      · exact absurd hcy h
    · by_cases hE : runEnd get cols code y + 1 < cols
      · refine ih (Or.inr (Or.inr ?_)) s hs
        intro hcode
        exact runEnd_stop get cols code y ⟨hE, hcode⟩
      · exfalso
        have : segsFrom get cols code (runEnd get cols code y + 1) = [] := by
          unfold segsFrom
          rw [if_neg hE]
        rw [this] at hs
        exact List.not_mem_nil s hs
  · intro y hy hcy ih hpre s hs
    unfold segsFrom at hs
    rw [if_pos hy, if_neg hcy] at hs
    refine ih (Or.inr (Or.inl ?_)) s hs
    simpa using hcy
  · intro y hy hpre s hs
    unfold segsFrom at hs
    rw [if_neg hy] at hs
    exact absurd hs (List.not_mem_nil s)

theorem segsFrom_pairwise (get : Nat → Nat) (cols code : Nat) :
    ∀ c, List.Pairwise (fun s t : Nat × Nat => s.2 < t.1) (segsFrom get cols code c) := by
  refine segsFrom.induct get cols code
    (fun c => List.Pairwise (fun s t : Nat × Nat => s.2 < t.1) (segsFrom get cols code c)) ?_ ?_ ?_
  · intro y hy hcy ih
    unfold segsFrom
    rw [if_pos hy, if_pos hcy]
    refine List.Pairwise.cons ?_ ih
    intro t ht
    have := (segsFrom_sound get cols code _ t ht).1
    omega
  · intro y hy hcy ih
    unfold segsFrom
    rw [if_pos hy, if_neg hcy]
    exact ih
  · intro y hy
    unfold segsFrom
    rw [if_neg hy]
    exact List.Pairwise.nil

theorem findOpen_none_iff (k : Nat × Nat) :
    ∀ l : List ((Nat × Nat) × Rect), findOpen k l = none ↔ k ∉ l.map (fun e => e.1) := by
  intro l
  induction l with
  | nil => simp [findOpen]
  | cons e t ih =>
    rcases e with ⟨k2, rect⟩
    simp only [findOpen, List.map_cons, List.mem_cons]
    by_cases hk : k2 = k
    · rw [if_pos hk]
      simp [hk]
    · rw [if_neg hk]
      rw [ih]
      constructor
      · rintro h (h2 | h2)
        · exact hk h2.symm
        · exact h h2
      · intro h h2
        exact h (Or.inr h2)

theorem findOpen_eq_some (k : Nat × Nat) (v : Rect) :
    ∀ l : List ((Nat × Nat) × Rect), (l.map (fun e => e.1)).Nodup → (k, v) ∈ l →
      findOpen k l = some v := by
  intro l
  induction l with
  | nil => simp
  | cons e t ih =>
    rcases e with ⟨k2, rect⟩
    intro hnd hmem
    simp only [List.map_cons, List.nodup_cons] at hnd
    rcases List.mem_cons.1 hmem with heq | hmem2
    · cases heq
      simp [findOpen]
    · have hk : k2 ≠ k := by
        intro h
        rw [h] at hnd
        exact hnd.1 (by simpa using List.mem_map_of_mem (fun e => e.1) hmem2)
      simp only [findOpen, if_neg hk]
      exact ih hnd.2 hmem2

theorem findOpen_mem (k : Nat × Nat) (v : Rect) :
    ∀ l : List ((Nat × Nat) × Rect), findOpen k l = some v → (k, v) ∈ l := by
  intro l
  induction l with
  | nil => simp [findOpen]
  | cons e t ih =>
    rcases e with ⟨k2, rect⟩
    simp only [findOpen]
    by_cases hk : k2 = k
    · subst hk
      rw [if_pos rfl]
      intro h
      injection h with h
      exact List.mem_cons.2 (Or.inl (by rw [h]))
    · rw [if_neg hk]
      intro h
      exact List.mem_cons.2 (Or.inr (ih h))

theorem removeOpen_not_found (k : Nat × Nat) :
    ∀ l : List ((Nat × Nat) × Rect), findOpen k l = none → removeOpen k l = l := by
  intro l
  induction l with
  | nil => intro; rfl
  | cons e t ih =>
    rcases e with ⟨k2, rect⟩
    simp only [findOpen, removeOpen]
    by_cases hk : k2 = k
    · rw [if_pos hk]
      intro h
      exact absurd h (by simp)
    · rw [if_neg hk, if_neg hk]
      intro h
      rw [ih h]

theorem findOpen_removeOpen (k k2 : Nat × Nat) (hne : k ≠ k2) :
    ∀ l : List ((Nat × Nat) × Rect), findOpen k (removeOpen k2 l) = findOpen k l := by
  intro l
  induction l with
  | nil => rfl
  | cons e t ih =>
    rcases e with ⟨k3, rect⟩
    simp only [removeOpen, findOpen]
    by_cases h3 : k3 = k2
    · rw [if_pos h3, if_neg (by rw [h3]; exact fun h => hne h.symm)]
    · rw [if_neg h3]
      simp only [findOpen]
      by_cases h4 : k3 = k
      · rw [if_pos h4, if_pos h4]
      · rw [if_neg h4, if_neg h4, ih]

theorem stepSegs_closed (r : Nat) :
    ∀ (segs : List (Nat × Nat)), segs.Pairwise (fun s t => s ≠ t) →
    ∀ (next prev : List ((Nat × Nat) × Rect)),
      stepSegs r segs next prev
        = (next ++ segs.map (fun s => (s, mkRect r prev s)),
           segs.foldl (fun p s => removeOpen s p) prev) := by
  intro segs
  induction segs with
  | nil => intro _ next prev; simp [stepSegs]
  | cons s rest ih =>
    intro hpw next prev
    have hne : ∀ t ∈ rest, t ≠ s := by
      intro t ht heq
      exact (List.pairwise_cons.1 hpw).1 t ht heq.symm
    rcases hf : findOpen s prev with _ | rect
    · simp only [stepSegs, hf]
      rw [ih (List.pairwise_cons.1 hpw).2]
      simp only [List.map_cons, List.foldl_cons, mkRect, hf]
      rw [removeOpen_not_found s prev hf]
      simp [List.append_assoc]
    · simp only [stepSegs, hf]
      rw [ih (List.pairwise_cons.1 hpw).2]
      have hmap : rest.map (fun t => (t, mkRect r (removeOpen s prev) t))
          = rest.map (fun t => (t, mkRect r prev t)) := by
        apply List.map_congr_left
        intro t ht
        have : findOpen t (removeOpen s prev) = findOpen t prev :=
          findOpen_removeOpen t s (hne t ht) prev
        simp [mkRect, this]
      rw [hmap]
      simp only [List.map_cons, List.foldl_cons, mkRect, hf]
      simp [List.append_assoc]

theorem removeOpen_sublist (k : Nat × Nat) :
    ∀ l : List ((Nat × Nat) × Rect), List.Sublist (removeOpen k l) l := by
  intro l
  induction l with
  | nil => simp [removeOpen]
  | cons e t ih =>
    rcases e with ⟨k2, rect⟩
    simp only [removeOpen]
    by_cases hk : k2 = k
    · rw [if_pos hk]
      exact (List.sublist_cons_self _ _)
    · rw [if_neg hk]
      exact List.Sublist.cons₂ _ ih

theorem foldl_removeOpen_sublist :
    ∀ (segs : List (Nat × Nat)) (prev : List ((Nat × Nat) × Rect)),
      List.Sublist (segs.foldl (fun p s => removeOpen s p) prev) prev := by
  intro segs
  induction segs with
  | nil => intro prev; simp
  | cons s rest ih =>
    intro prev
    rw [List.foldl_cons]
    exact (ih (removeOpen s prev)).trans (removeOpen_sublist s prev)

theorem not_key_mem_removeOpen (k : Nat × Nat) :
    ∀ l : List ((Nat × Nat) × Rect), (l.map (fun e => e.1)).Nodup →
      k ∉ (removeOpen k l).map (fun e => e.1) := by
  intro l
  induction l with
  | nil => simp [removeOpen]
  | cons e t ih =>
    rcases e with ⟨k2, rect⟩
    intro hnd
    simp only [List.map_cons, List.nodup_cons] at hnd
    simp only [removeOpen]
    by_cases hk : k2 = k
    · rw [if_pos hk]
      rw [← hk]
      exact hnd.1
    · rw [if_neg hk]
      simp only [List.map_cons, List.mem_cons]
      rintro (h | h)
      · exact hk h.symm
      · exact ih hnd.2 h

theorem removeOpen_keys_nodup (k : Nat × Nat) (l : List ((Nat × Nat) × Rect))
    (hnd : (l.map (fun e => e.1)).Nodup) : ((removeOpen k l).map (fun e => e.1)).Nodup :=
  hnd.sublist (List.Sublist.map (fun e => e.1) (removeOpen_sublist k l))

theorem key_not_in_foldl_removeOpen :
    ∀ (segs : List (Nat × Nat)) (prev : List ((Nat × Nat) × Rect)),
      (prev.map (fun e => e.1)).Nodup →
      ∀ k ∈ segs, k ∉ (segs.foldl (fun p s => removeOpen s p) prev).map (fun e => e.1) := by
  intro segs
  induction segs with
  | nil => simp
  | cons s rest ih =>
    intro prev hnd k hk
    rw [List.foldl_cons]
    rcases List.mem_cons.1 hk with rfl | hk2
    · intro hmem
      have hsub : List.Sublist
          ((rest.foldl (fun p s => removeOpen s p) (removeOpen k prev)).map (fun e => e.1))
          ((removeOpen k prev).map (fun e => e.1)) :=
        List.Sublist.map (fun e => e.1) (foldl_removeOpen_sublist rest (removeOpen k prev))
      exact not_key_mem_removeOpen k prev hnd (hsub.mem hmem)
    · exact ih (removeOpen s prev) (removeOpen_keys_nodup s prev hnd) k hk2

theorem mem_removeOpen_of_ne (k : Nat × Nat) (e : (Nat × Nat) × Rect) :
    ∀ l : List ((Nat × Nat) × Rect), e ∈ l → e.1 ≠ k → e ∈ removeOpen k l := by
  intro l
  induction l with
  | nil => simp
  | cons e2 t ih =>
    rcases e2 with ⟨k2, rect⟩
    intro hmem hne
    simp only [removeOpen]
    by_cases hk : k2 = k
    · rw [if_pos hk]
      rcases List.mem_cons.1 hmem with rfl | h
      · exact absurd hk hne
      · exact h
    · rw [if_neg hk]
      rcases List.mem_cons.1 hmem with rfl | h
      · exact List.mem_cons.2 (Or.inl rfl)
      · exact List.mem_cons.2 (Or.inr (ih h hne))

theorem mem_foldl_removeOpen_of_not_key (e : (Nat × Nat) × Rect) :
    ∀ (segs : List (Nat × Nat)) (prev : List ((Nat × Nat) × Rect)),
      e ∈ prev → e.1 ∉ segs → e ∈ segs.foldl (fun p s => removeOpen s p) prev := by
  intro segs
  induction segs with
  | nil => intro prev h _; simpa using h
  | cons s rest ih =>
    intro prev hmem hkey
    rw [List.foldl_cons]
    refine ih (removeOpen s prev) ?_ (fun h => hkey (List.mem_cons.2 (Or.inr h)))
    exact mem_removeOpen_of_ne s e prev hmem
      (fun h => hkey (List.mem_cons.2 (Or.inl h)))

theorem collectRow_sound (sd : SheetDiff) (code r : Nat) :
    ∀ s ∈ collectRowSegments sd r code,
      s.1 ≤ s.2 ∧ s.2 < sd.cols ∧
      (∀ x, s.1 ≤ x → x ≤ s.2 → cellAt sd r x = code) ∧
      (s.2 + 1 = sd.cols ∨ cellAt sd r (s.2 + 1) ≠ code) := by
  intro s hs
  obtain ⟨_, h2, h3, h4, h5⟩ :=
    segsFrom_sound (fun c => cellAt sd r c) sd.cols code 0 s hs
  exact ⟨h2, h3, h4, h5⟩

theorem collectRow_cover (sd : SheetDiff) (code r : Nat) :
    ∀ x, x < sd.cols → cellAt sd r x = code →
      ∃ s ∈ collectRowSegments sd r code, s.1 ≤ x ∧ x ≤ s.2 :=
  fun x hx hc =>
    segsFrom_cover (fun c => cellAt sd r c) sd.cols code 0 x (Nat.zero_le x) hx hc

theorem collectRow_left_max (sd : SheetDiff) (code r : Nat) :
    ∀ s ∈ collectRowSegments sd r code, s.1 = 0 ∨ cellAt sd r (s.1 - 1) ≠ code :=
  segsFrom_left_max (fun c => cellAt sd r c) sd.cols code 0 (Or.inl rfl)

theorem collectRow_pairwise (sd : SheetDiff) (code r : Nat) :
    List.Pairwise (fun s t : Nat × Nat => s.2 < t.1) (collectRowSegments sd r code) :=
  segsFrom_pairwise (fun c => cellAt sd r c) sd.cols code 0

theorem collectRow_distinct (sd : SheetDiff) (code r : Nat) :
    List.Pairwise (fun s t : Nat × Nat => s ≠ t) (collectRowSegments sd r code) := by
  refine List.Pairwise.imp_of_mem ?_ (collectRow_pairwise sd code r)
  intro s t hs ht hlt heq
  have h1 := (collectRow_sound sd code r s hs).1
  rw [heq] at h1 hlt
  omega

theorem sweepInv_zero (sd : SheetDiff) (code : Nat) : SweepInv sd code 0 [] [] := by
  refine ⟨?_, ?_, ?_, ?_, ?_⟩ <;> simp [SweepInv]

theorem mkRect_some (r : Nat) (prev : List ((Nat × Nat) × Rect)) (s : Nat × Nat)
    (rect : Rect) (hf : findOpen s prev = some rect) :
    mkRect r prev s = ⟨rect.r1, rect.c1, r, rect.c2⟩ := by
  simp [mkRect, hf]

theorem mkRect_none (r : Nat) (prev : List ((Nat × Nat) × Rect)) (s : Nat × Nat)
    (hf : findOpen s prev = none) :
    mkRect r prev s = ⟨r, s.1, r, s.2⟩ := by
  simp [mkRect, hf]

theorem sweepInv_step (sd : SheetDiff) (code r : Nat) (fin : List Rect)
    (opn : List ((Nat × Nat) × Rect)) (h : SweepInv sd code r fin opn) :
    SweepInv sd code (r + 1)
      (fin ++ ((collectRowSegments sd r code).foldl (fun p s => removeOpen s p) opn).map
        (fun e => e.2))
      ((collectRowSegments sd r code).map (fun s => (s, mkRect r opn s))) := by
  obtain ⟨hA, hB, hC, hD, hE⟩ := h
  have hNew : ∀ s ∈ collectRowSegments sd r code,
      s = ((mkRect r opn s).c1, (mkRect r opn s).c2) ∧
      (mkRect r opn s).r2 = r ∧ (mkRect r opn s).r1 ≤ r ∧
      (∀ p, (mkRect r opn s).r1 ≤ p → p ≤ r → s ∈ collectRowSegments sd p code) ∧
      ((mkRect r opn s).r1 = 0 ∨ s ∉ collectRowSegments sd ((mkRect r opn s).r1 - 1) code) := by
    intro s hs
    rcases hf : findOpen s opn with _ | rect
    · rw [mkRect_none r opn s hf]
      refine ⟨rfl, rfl, le_refl r, ?_, ?_⟩
      · intro p hp1 hp2
        have hpr : p = r := le_antisymm hp2 hp1
        rw [hpr]
        exact hs
      · by_cases hr0 : r = 0
        · exact Or.inl hr0
        · refine Or.inr ?_
          intro hmem
          obtain ⟨rect', hrect', hspan, hr1, hr2⟩ := hD (r - 1) (by omega) s hmem
          rcases List.mem_append.1 hrect' with hfin | hopn
          · have h2 := (hC rect' hfin).2.1
            omega
          · obtain ⟨e, he, heq⟩ := List.mem_map.1 hopn
            have hAe := hA e he
            have hkey : e.1 = s := by
              rw [hAe.1, heq, hspan]
            have hin : s ∈ opn.map (fun e => e.1) := by
              rw [← hkey]
              exact List.mem_map_of_mem _ he
            exact (findOpen_none_iff s opn).1 hf hin
    · rw [mkRect_some r opn s rect hf]
      have hmem := findOpen_mem s rect opn hf
      have hAe := hA (s, rect) hmem
      have hkey : s = (rect.c1, rect.c2) := hAe.1
      have hr2 : rect.r2 + 1 = r := hAe.2.1
      have hr12 : rect.r1 ≤ rect.r2 := hAe.2.2.1
      refine ⟨hkey, rfl, ?_, ?_, hAe.2.2.2.2⟩
      · show rect.r1 ≤ r
        omega
      intro p hp1 hp2
      by_cases hpr : p ≤ rect.r2
      · exact hAe.2.2.2.1 p hp1 hpr
      · have hpeq : p = r := by omega
        rw [hpeq]
        exact hs
  have hOpnSub : ∀ e ∈ (collectRowSegments sd r code).foldl (fun p s => removeOpen s p) opn,
      e ∈ opn ∧ e.1 ∉ collectRowSegments sd r code := by
    intro e he
    refine ⟨(foldl_removeOpen_sublist _ opn).subset he, ?_⟩
    intro hkey
    exact key_not_in_foldl_removeOpen _ opn hB e.1 hkey (List.mem_map_of_mem _ he)
  refine ⟨?_, ?_, ?_, ?_, ?_⟩
  · intro e he
    obtain ⟨s, hs, rfl⟩ := List.mem_map.1 he
    obtain ⟨hk, h2, h3, h4, h5⟩ := hNew s hs
    dsimp only
    refine ⟨hk, by omega, by omega, ?_, h5⟩
    intro p hp1 hp2
    exact h4 p hp1 (by omega)
  · rw [List.map_map]
    have hid : ((fun e : (Nat × Nat) × Rect => e.1) ∘ (fun s => (s, mkRect r opn s)))
        = fun s : Nat × Nat => s := rfl
    rw [hid]
    simpa using collectRow_distinct sd code r
  · intro rect hrect
    rcases List.mem_append.1 hrect with hfin | hfp
    · obtain ⟨h1, h2, h3, h4, h5⟩ := hC rect hfin
      exact ⟨h1, by omega, h3, h4, h5⟩
    · obtain ⟨e, he, rfl⟩ := List.mem_map.1 hfp
      obtain ⟨heo, hknot⟩ := hOpnSub e he
      obtain ⟨hk, h2, h3, h4, h5⟩ := hA e heo
      refine ⟨h3, by omega, ?_, ?_, ?_⟩
      · intro p hp1 hp2
        have := h4 p hp1 hp2
        rw [hk] at this
        exact this
      · rw [h2, ← hk]
        exact hknot
      · rw [← hk]
        exact h5
  · intro p hp s hs
    by_cases hpr : p = r
    · subst hpr
      refine ⟨mkRect p opn s, ?_, ((hNew s hs).1).symm, (hNew s hs).2.2.1, ?_⟩
      · refine List.mem_append.2 (Or.inr ?_)
        have heq : mkRect p opn s
            = (fun e : (Nat × Nat) × Rect => e.2) (s, mkRect p opn s) := rfl
        rw [heq]
        exact List.mem_map_of_mem _ (List.mem_map_of_mem _ hs)
      · rw [(hNew s hs).2.1]
    · have hplt : p < r := by omega
      obtain ⟨rect, hrect, hspan, h1, h2⟩ := hD p hplt s hs
      rcases List.mem_append.1 hrect with hfin | hopn
      · exact ⟨rect, List.mem_append.2 (Or.inl (List.mem_append.2 (Or.inl hfin))),
          hspan, h1, h2⟩
      · obtain ⟨e, he, rfl⟩ := List.mem_map.1 hopn
        by_cases hk : e.1 ∈ collectRowSegments sd r code
        · have hfind : findOpen e.1 opn = some e.2 := by
            have hpair : (e.1, e.2) = e := rfl
            rw [← hpair] at he
            exact findOpen_eq_some e.1 e.2 opn hB he
          refine ⟨mkRect r opn e.1, ?_, ?_, ?_, ?_⟩
          · refine List.mem_append.2 (Or.inr ?_)
            have heq : mkRect r opn e.1
                = (fun ee : (Nat × Nat) × Rect => ee.2) (e.1, mkRect r opn e.1) := rfl
            rw [heq]
            exact List.mem_map_of_mem _ (List.mem_map_of_mem _ hk)
          · rw [mkRect_some r opn e.1 e.2 hfind]
            exact hspan
          · rw [mkRect_some r opn e.1 e.2 hfind]
            exact h1
          · rw [mkRect_some r opn e.1 e.2 hfind]
            have hr2 := (hA e he).2.1
            dsimp only
            omega
        · refine ⟨e.2, ?_, hspan, h1, h2⟩
          refine List.mem_append.2 (Or.inl (List.mem_append.2 (Or.inr ?_)))
          exact List.mem_map_of_mem _ (mem_foldl_removeOpen_of_not_key e _ opn he hk)
  · rw [List.map_map]
    have hmap2 : ((fun e : (Nat × Nat) × Rect => e.2) ∘ (fun s => (s, mkRect r opn s)))
        = fun s : Nat × Nat => mkRect r opn s := rfl
    rw [hmap2]
    rw [List.pairwise_append]
    refine ⟨?_, ?_, ?_⟩
    · refine List.Pairwise.sublist ?_ hE
      exact List.Sublist.append_left
        (List.Sublist.map (fun e => e.2)
          (foldl_removeOpen_sublist (collectRowSegments sd r code) opn)) fin
    · rw [List.pairwise_map]
      refine List.Pairwise.imp_of_mem ?_ (collectRow_pairwise sd code r)
      intro s t hs ht hlt hspan
      exfalso
      have hks := (hNew s hs).1
      have hkt := (hNew t ht).1
      have hst : s = t := by
        rw [hks, hkt, hspan.1, hspan.2]
      have hsound := (collectRow_sound sd code r s hs).1
      rw [hst] at hlt hsound
      omega
    · intro A hA2 B hB2
      obtain ⟨t, ht, rfl⟩ := List.mem_map.1 hB2
      have hBfacts := hNew t ht
      intro hspan
      rcases List.mem_append.1 hA2 with hfin | hfp
      · obtain ⟨h1, h2, h3, h4, h5⟩ := hC A hfin
        left
        by_contra hcon
        push_neg at hcon
        have hcover : t ∈ collectRowSegments sd (A.r2 + 1) code := by
          refine hBfacts.2.2.2.1 (A.r2 + 1) (by omega) (by omega)
        have hteq : (A.c1, A.c2) = t := by
          rw [hspan.1, hspan.2]
          exact (hBfacts.1).symm
        rw [← hteq] at hcover
        exact h4 hcover
      · exfalso
        obtain ⟨e, he, rfl⟩ := List.mem_map.1 hfp
        obtain ⟨heo, hknot⟩ := hOpnSub e he
        have hAe := hA e heo
        have hkey : e.1 = t := by
          rw [hAe.1, hspan.1, hspan.2]
          exact (hBfacts.1).symm
        have : t ∈ collectRowSegments sd r code := ht
        rw [← hkey] at this
        exact hknot this

theorem collectRow_unique (sd : SheetDiff) (code p : Nat) :
    ∀ s ∈ collectRowSegments sd p code, ∀ t ∈ collectRowSegments sd p code,
      ∀ x, s.1 ≤ x → x ≤ s.2 → t.1 ≤ x → x ≤ t.2 → s = t := by
  intro s hs t ht x hx1 hx2 hx3 hx4
  by_cases hst : s = t
  · exact hst
  · exfalso
    have hpw2 : List.Pairwise (fun a b : Nat × Nat => a.2 < b.1 ∨ b.2 < a.1)
        (collectRowSegments sd p code) :=
      (collectRow_pairwise sd code p).imp (fun h => Or.inl h)
    have hsym : Symmetric (fun a b : Nat × Nat => a.2 < b.1 ∨ b.2 < a.1) := by
      intro a b h
      exact h.symm
    rcases hpw2.forall hsym hs ht hst with h | h <;> omega

theorem sweepInv_range (sd : SheetDiff) (code : Nat) :
    ∀ r, SweepInv sd code r
      ((List.range r).foldl (stepRow sd code) ([], [])).1
      ((List.range r).foldl (stepRow sd code) ([], [])).2 := by
  intro r
  induction r with
  | zero => simpa using sweepInv_zero sd code
  | succ n ih =>
    rw [List.range_succ, List.foldl_append]
    simp only [List.foldl_cons, List.foldl_nil]
    have hclosed := stepSegs_closed n (collectRowSegments sd n code)
      (collectRow_distinct sd code n) []
      ((List.range n).foldl (stepRow sd code) ([], [])).2
    have hstep : stepRow sd code ((List.range n).foldl (stepRow sd code) ([], [])) n
        = (((List.range n).foldl (stepRow sd code) ([], [])).1
            ++ ((collectRowSegments sd n code).foldl (fun p s => removeOpen s p)
                ((List.range n).foldl (stepRow sd code) ([], [])).2).map (fun e => e.2),
           (collectRowSegments sd n code).map
             (fun s => (s, mkRect n ((List.range n).foldl (stepRow sd code) ([], [])).2 s))) := by
      simp only [stepRow, hclosed, List.nil_append]
    rw [hstep]
    exact sweepInv_step sd code n _ _ ih

theorem mergeRect_exact (sd : SheetDiff) (code : Nat) :
    (∀ rect ∈ mergeRectanglesForCode sd code,
       rect.r1 ≤ rect.r2 ∧ rect.r2 < sd.rows ∧ rect.c1 ≤ rect.c2 ∧ rect.c2 < sd.cols) ∧
    (∀ p x : Nat, p < sd.rows → x < sd.cols →
       ((∃ rect ∈ mergeRectanglesForCode sd code,
           rect.r1 ≤ p ∧ p ≤ rect.r2 ∧ rect.c1 ≤ x ∧ x ≤ rect.c2) ↔ cellAt sd p x = code)) ∧
    List.Pairwise (fun A B : Rect =>
       ∀ p x : Nat, ¬(A.r1 ≤ p ∧ p ≤ A.r2 ∧ A.c1 ≤ x ∧ x ≤ A.c2 ∧
                      B.r1 ≤ p ∧ p ≤ B.r2 ∧ B.c1 ≤ x ∧ x ≤ B.c2))
      (mergeRectanglesForCode sd code) := by
  obtain ⟨hA, hB, hC, hD, hE⟩ := sweepInv_range sd code sd.rows
  have hmerge : mergeRectanglesForCode sd code
      = ((List.range sd.rows).foldl (stepRow sd code) ([], [])).1
        ++ ((List.range sd.rows).foldl (stepRow sd code) ([], [])).2.map (fun e => e.2) := rfl
  have hMfacts : ∀ rect ∈ mergeRectanglesForCode sd code,
      rect.r1 ≤ rect.r2 ∧ rect.r2 < sd.rows ∧
      (∀ p, rect.r1 ≤ p → p ≤ rect.r2 →
        (rect.c1, rect.c2) ∈ collectRowSegments sd p code) := by
    intro rect hrect
    rw [hmerge] at hrect
    rcases List.mem_append.1 hrect with hfin | hopn
    · obtain ⟨h1, h2, h3, _, _⟩ := hC rect hfin
      exact ⟨h1, by omega, h3⟩
    · obtain ⟨e, he, rfl⟩ := List.mem_map.1 hopn
      obtain ⟨hk, h2, h3, h4, _⟩ := hA e he
      refine ⟨h3, by omega, ?_⟩
      intro p hp1 hp2
      have := h4 p hp1 hp2
      rw [hk] at this
      exact this
  have hbounds : ∀ rect ∈ mergeRectanglesForCode sd code,
      rect.r1 ≤ rect.r2 ∧ rect.r2 < sd.rows ∧ rect.c1 ≤ rect.c2 ∧ rect.c2 < sd.cols := by
    intro rect hrect
    obtain ⟨h1, h2, h3⟩ := hMfacts rect hrect
    have hseg := h3 rect.r1 (le_refl _) h1
    obtain ⟨hs1, hs2, _, _⟩ := collectRow_sound sd code rect.r1 _ hseg
    exact ⟨h1, h2, hs1, hs2⟩
  refine ⟨hbounds, ?_, ?_⟩
  · intro p x hp hx
    constructor
    · rintro ⟨rect, hrect, hr1, hr2, hc1, hc2⟩
      obtain ⟨_, _, h3⟩ := hMfacts rect hrect
      have hseg := h3 p hr1 hr2
      obtain ⟨_, _, hrun, _⟩ := collectRow_sound sd code p _ hseg
      exact hrun x hc1 hc2
    · intro hcode
      obtain ⟨s, hs, hx1, hx2⟩ := collectRow_cover sd code p x hx hcode
      obtain ⟨rect, hrect, hspan, hp1, hp2⟩ := hD p hp s hs
      refine ⟨rect, by rw [hmerge]; exact hrect, hp1, hp2, ?_, ?_⟩
      · have : rect.c1 = s.1 := by rw [← hspan]
        omega
      · have : rect.c2 = s.2 := by rw [← hspan]
        omega
  · rw [hmerge]
    refine List.Pairwise.imp_of_mem ?_ hE
    intro A B hmA hmB hrel p x hboth
    obtain ⟨ha1, ha2, ha3, ha4, hb1, hb2, hb3, hb4⟩ := hboth
    have hmA2 : A ∈ mergeRectanglesForCode sd code := by rw [hmerge]; exact hmA
    have hmB2 : B ∈ mergeRectanglesForCode sd code := by rw [hmerge]; exact hmB
    obtain ⟨_, _, hA3⟩ := hMfacts A hmA2
    obtain ⟨_, _, hB3⟩ := hMfacts B hmB2
    have hsegA := hA3 p ha1 ha2
    have hsegB := hB3 p hb1 hb2
    have hseq : (A.c1, A.c2) = (B.c1, B.c2) :=
      collectRow_unique sd code p _ hsegA _ hsegB x ha3 ha4 hb3 hb4
    have hspan : A.c1 = B.c1 ∧ A.c2 = B.c2 := by
      constructor
      · exact congrArg Prod.fst hseq
      · exact congrArg Prod.snd hseq
    rcases hrel hspan with h | h <;> omega

theorem mergeRect_sdPlus_eval : mergeRectanglesForCode sdPlus CODE_ADD
    = [⟨0, 0, 0, 0⟩, ⟨1, 0, 1, 1⟩, ⟨2, 0, 2, 0⟩] := by
  simp [mergeRectanglesForCode, stepRow, stepSegs, collectRowSegments, segsFrom, runEnd,
    cellAt, sdPlus, findOpen, removeOpen, mkRect, List.range_succ, CODE_ADD]
  decide

/-- C3 (counterexample): the rectangle decomposition is not of minimal
cardinality.  On the 3-by-2 plus-shaped grid `sdPlus` (column 0 carries the
code in all three rows, column 1 only in the middle row), two rectangles cover
the code cells exactly, yet `mergeRectanglesForCode` returns three, because
the row sweep only merges vertically identical column spans. -/
theorem mergeRectangles_not_minimal :
    (∀ rect ∈ twoRects,
       rect.r1 ≤ rect.r2 ∧ rect.r2 < sdPlus.rows ∧ rect.c1 ≤ rect.c2 ∧ rect.c2 < sdPlus.cols) ∧
    (∀ p : Nat, p < sdPlus.rows → ∀ x : Nat, x < sdPlus.cols →
       ((∃ rect ∈ twoRects, rect.r1 ≤ p ∧ p ≤ rect.r2 ∧ rect.c1 ≤ x ∧ x ≤ rect.c2)
         ↔ cellAt sdPlus p x = CODE_ADD)) ∧
    twoRects.length < (mergeRectanglesForCode sdPlus CODE_ADD).length := by
  refine ⟨by decide, by decide, ?_⟩
  rw [mergeRect_sdPlus_eval]
  decide

/-- C3 (amended): every rectangle produced by the decomposition is built of
maximal horizontal runs: each row it spans carries the code across the whole
column span, the span cannot be extended left or right on any spanned row, and
the identical span occurs as a segment in neither the row above nor the row
below the rectangle (vertical maximality).  The set of rectangles however need
not have minimal cardinality. -/
theorem mergeRectangles_maximal (sd : SheetDiff) (code : Nat)
    (hcode : code = CODE_ADD ∨ code = CODE_REMOVE ∨ code = CODE_VALUE ∨ code = CODE_FORMULA) :
    ∀ rect ∈ mergeRectanglesForCode sd code,
      (∀ p, rect.r1 ≤ p → p ≤ rect.r2 →
         (rect.c1, rect.c2) ∈ collectRowSegments sd p code) ∧
      (∀ p, rect.r1 ≤ p → p ≤ rect.r2 →
         ∀ x, rect.c1 ≤ x → x ≤ rect.c2 → cellAt sd p x = code) ∧
      (∀ p, rect.r1 ≤ p → p ≤ rect.r2 → (rect.c1 = 0 ∨ cellAt sd p (rect.c1 - 1) ≠ code)) ∧
      (∀ p, rect.r1 ≤ p → p ≤ rect.r2 →
         (rect.c2 + 1 = sd.cols ∨ cellAt sd p (rect.c2 + 1) ≠ code)) ∧
      (rect.r1 = 0 ∨ (rect.c1, rect.c2) ∉ collectRowSegments sd (rect.r1 - 1) code) ∧
      (rect.r2 + 1 = sd.rows ∨ (rect.c1, rect.c2) ∉ collectRowSegments sd (rect.r2 + 1) code) := by
  obtain ⟨hA, hB, hC, hD, hE⟩ := sweepInv_range sd code sd.rows
  have hmerge : mergeRectanglesForCode sd code
      = ((List.range sd.rows).foldl (stepRow sd code) ([], [])).1
        ++ ((List.range sd.rows).foldl (stepRow sd code) ([], [])).2.map (fun e => e.2) := rfl
  intro rect hrect
  rw [hmerge] at hrect
  have hcore : (∀ p, rect.r1 ≤ p → p ≤ rect.r2 →
      (rect.c1, rect.c2) ∈ collectRowSegments sd p code) ∧
      (rect.r1 = 0 ∨ (rect.c1, rect.c2) ∉ collectRowSegments sd (rect.r1 - 1) code) ∧
      (rect.r2 + 1 = sd.rows ∨ (rect.c1, rect.c2) ∉ collectRowSegments sd (rect.r2 + 1) code) := by
    rcases List.mem_append.1 hrect with hfin | hopn
    · obtain ⟨h1, h2, h3, h4, h5⟩ := hC rect hfin
      exact ⟨h3, h5, Or.inr h4⟩
    · obtain ⟨e, he, rfl⟩ := List.mem_map.1 hopn
      obtain ⟨hk, h2, h3, h4, h5⟩ := hA e he
      refine ⟨?_, ?_, Or.inl h2⟩
      · intro p hp1 hp2
        have := h4 p hp1 hp2
        rw [hk] at this
        exact this
      · rw [← hk]
        exact h5
  obtain ⟨hcov, hleft, hright⟩ := hcore
  refine ⟨hcov, ?_, ?_, ?_, hleft, hright⟩
  · intro p hp1 hp2 x hx1 hx2
    obtain ⟨_, _, hrun, _⟩ := collectRow_sound sd code p _ (hcov p hp1 hp2)
    exact hrun x hx1 hx2
  · intro p hp1 hp2
    exact collectRow_left_max sd code p _ (hcov p hp1 hp2)
  · intro p hp1 hp2
    obtain ⟨_, _, _, hrm⟩ := collectRow_sound sd code p _ (hcov p hp1 hp2)
    exact hrm

/-- Witness for the amended C3 at the middle rectangle of the plus shape. -/
theorem mergeRectangles_maximal_witness :
    (CODE_ADD = CODE_ADD ∨ CODE_ADD = CODE_REMOVE ∨ CODE_ADD = CODE_VALUE ∨
      CODE_ADD = CODE_FORMULA) ∧
    ((∀ p, (1 : Nat) ≤ p → p ≤ 1 →
        ((0 : Nat), (1 : Nat)) ∈ collectRowSegments sdPlus p CODE_ADD) ∧
     (∀ p, (1 : Nat) ≤ p → p ≤ 1 →
        ∀ x, (0 : Nat) ≤ x → x ≤ 1 → cellAt sdPlus p x = CODE_ADD) ∧
     (∀ p, (1 : Nat) ≤ p → p ≤ 1 → ((0 : Nat) = 0 ∨ cellAt sdPlus p (0 - 1) ≠ CODE_ADD)) ∧
     (∀ p, (1 : Nat) ≤ p → p ≤ 1 →
        ((1 : Nat) + 1 = sdPlus.cols ∨ cellAt sdPlus p (1 + 1) ≠ CODE_ADD)) ∧
     ((1 : Nat) = 0 ∨ ((0 : Nat), (1 : Nat)) ∉ collectRowSegments sdPlus (1 - 1) CODE_ADD) ∧
     ((1 : Nat) + 1 = sdPlus.rows ∨
        ((0 : Nat), (1 : Nat)) ∉ collectRowSegments sdPlus (1 + 1) CODE_ADD)) :=
  ⟨Or.inl rfl,
   mergeRectangles_maximal sdPlus CODE_ADD (Or.inl rfl) ⟨1, 0, 1, 1⟩
     (by rw [mergeRect_sdPlus_eval]; decide)⟩

/-- C4: for every `SheetDiff` and difference code among Added, Removed,
ValueChanged and FormulaChanged, the rectangles returned by the decomposition
stay inside the grid, their union equals exactly the set of grid coordinates
whose stored code matches, and no two returned rectangles overlap. -/
theorem mergeRectangles_exact_cover (sd : SheetDiff) (code : Nat)
    (hcode : code = CODE_ADD ∨ code = CODE_REMOVE ∨ code = CODE_VALUE ∨ code = CODE_FORMULA) :
    (∀ rect ∈ mergeRectanglesForCode sd code,
       rect.r1 ≤ rect.r2 ∧ rect.r2 < sd.rows ∧ rect.c1 ≤ rect.c2 ∧ rect.c2 < sd.cols) ∧
    (∀ p x : Nat, p < sd.rows → x < sd.cols →
       ((∃ rect ∈ mergeRectanglesForCode sd code,
           rect.r1 ≤ p ∧ p ≤ rect.r2 ∧ rect.c1 ≤ x ∧ x ≤ rect.c2) ↔ cellAt sd p x = code)) ∧
    List.Pairwise (fun A B : Rect =>
       ∀ p x : Nat, ¬(A.r1 ≤ p ∧ p ≤ A.r2 ∧ A.c1 ≤ x ∧ x ≤ A.c2 ∧
                      B.r1 ≤ p ∧ p ≤ B.r2 ∧ B.c1 ≤ x ∧ x ≤ B.c2))
      (mergeRectanglesForCode sd code) :=
  mergeRect_exact sd code

/-- Witness for C4 at the plus-shaped grid with the Added code. -/
theorem mergeRectangles_exact_cover_witness :
    (CODE_ADD = CODE_ADD ∨ CODE_ADD = CODE_REMOVE ∨ CODE_ADD = CODE_VALUE ∨
      CODE_ADD = CODE_FORMULA) ∧
    ((∀ rect ∈ mergeRectanglesForCode sdPlus CODE_ADD,
        rect.r1 ≤ rect.r2 ∧ rect.r2 < sdPlus.rows ∧ rect.c1 ≤ rect.c2 ∧ rect.c2 < sdPlus.cols) ∧
     (∀ p x : Nat, p < sdPlus.rows → x < sdPlus.cols →
        ((∃ rect ∈ mergeRectanglesForCode sdPlus CODE_ADD,
            rect.r1 ≤ p ∧ p ≤ rect.r2 ∧ rect.c1 ≤ x ∧ x ≤ rect.c2)
          ↔ cellAt sdPlus p x = CODE_ADD)) ∧
     List.Pairwise (fun A B : Rect =>
        ∀ p x : Nat, ¬(A.r1 ≤ p ∧ p ≤ A.r2 ∧ A.c1 ≤ x ∧ x ≤ A.c2 ∧
                       B.r1 ≤ p ∧ p ≤ B.r2 ∧ B.c1 ≤ x ∧ x ≤ B.c2))
       (mergeRectanglesForCode sdPlus CODE_ADD)) :=
  ⟨Or.inl rfl, mergeRectangles_exact_cover sdPlus CODE_ADD (Or.inl rfl)⟩
